import Mathlib

/-!
# Verification of the carta player-economy core

Shallow embedding of the gacha, trade-exchange and PvP-ranking services of
the carta repository (`app/services/gacha.py`, `app/services/trade.py`,
`app/services/pvp_rank.py`, `app/services/pvp_battle.py`) together with the
ledger rows they manipulate (`app/models/*.py`).

Conventions of the embedding:
* Database rows are Lean structures; tables are lists of rows kept in the
  order SQL `SELECT` without `ORDER BY` returns them (insertion order);
  `.first()` is `List.find?`.
* Python `int` is `Int`; non-negative counters backed by a `ge=0` column
  constraint are `Nat`.  The float `probability` column is modelled as `ℚ`.
* Randomness is passed explicitly: each draw consumes a `Rand` value, whose
  `idx` field drives `random.choice` (uniform index) and whose `t` field
  drives `random.choices` (inverse-CDF sample in `[0,1)`).
* Services raise `HTTPException`/`ValueError`; here they return `Except`.
  SQLAlchemy session semantics: mutations become visible only at a
  `commit()`; when a service raises, everything not yet committed is
  discarded.  Functions therefore return, along the error, the state as of
  the last commit.
* Event-log rows (`EventLog`) are fire-and-forget audit records that none of
  the verified claims constrain; they are omitted from the state.
-/

namespace Carta

/-- Modelled from the spec: `app.core.enums.CardRarity` is not under `src/`
(only imported there); the spec fixes the rarity ladder C < R < SR < SSR <
UR < LR < EX. -/
inductive CardRarity where
  | C | R | SR | SSR | UR | LR | EX
deriving DecidableEq, Repr

/-- Modelled from the spec: `app.core.enums.TradeStatus` is not under
`src/`; the spec fixes the statuses PENDING, COMPLETED, REJECTED,
CANCELLED. -/
inductive TradeStatus where
  | PENDING | COMPLETED | REJECTED | CANCELLED
deriving DecidableEq, Repr

/-- `app/models/card.py` `Card` (fields used by the economy core; image,
description, stats and shop link are never read by the verified code
paths). -/
structure Card where
  id : Int
  name : String
  rarity : CardRarity
deriving DecidableEq, Repr

/-- `app/models/player.py` `Player`. -/
structure Player where
  id : Int
  currency : Int
deriving DecidableEq, Repr

/-- `app/models/inventory.py` `Inventory` (card-backed rows; the `item_id`
variant is never touched by gacha or trade). -/
structure Inventory where
  player_id : Int
  card_id : Int
  quantity : Int
deriving DecidableEq, Repr

/-- `app/models/deck_card.py` `DeckCard`. -/
structure DeckCard where
  player_id : Int
  card_id : Int
  position : Int
deriving DecidableEq, Repr

/-- `app/models/trade.py` `Trade`. -/
structure Trade where
  proposer_id : Int
  receiver_id : Int
  offered_card_id : Int
  requested_card_id : Option Int
  price : Option Int
  status : TradeStatus
deriving DecidableEq, Repr

/-- Python truthiness of an `int | None` value (`if trade.price:` in
`trade.py` is false for both `None` and `0`). -/
def truthy : Option Int → Bool
  | none => false
  | some v => v != 0

/-! ## Ledger primitives shared by the services -/

/-- The row predicate `Player.id == pid`. -/
def playerKey (pid : Int) : Player → Bool := fun p => p.id == pid

/-- `select(Player).where(Player.id == pid)` followed by `.first()`. -/
def findPlayer (players : List Player) (pid : Int) : Option Player :=
  players.find? (playerKey pid)

/-- Currency read on the ledger (0 when the player row is absent). -/
def currencyOf (players : List Player) (pid : Int) : Int :=
  (findPlayer players pid).elim 0 (·.currency)

/-- In-place mutation `player.currency += d` of the first row the session
finds for `pid`. -/
def addCurrency (players : List Player) (pid : Int) (d : Int) : List Player :=
  match players with
  | [] => []
  | p :: rest =>
      if playerKey pid p then { p with currency := p.currency + d } :: rest
      else p :: addCurrency rest pid d

/-- The row predicate `player_id == pid && card_id == cid`. -/
def invKey (pid cid : Int) : Inventory → Bool :=
  fun r => r.player_id == pid && r.card_id == cid

/-- `select(Inventory).where(player_id == pid, card_id == cid)` followed by
`.first()`. -/
def findInv (invs : List Inventory) (pid cid : Int) : Option Inventory :=
  invs.find? (invKey pid cid)

/-- Inventory quantity read on the ledger (0 when the row is absent). -/
def getQty (invs : List Inventory) (pid cid : Int) : Int :=
  (findInv invs pid cid).elim 0 (·.quantity)

/-- In-place mutation (or deletion, when `f` returns `none`) of the first
inventory row of key `(pid, cid)`. -/
def updateFirstInv (invs : List Inventory) (pid cid : Int)
    (f : Inventory → Option Inventory) : List Inventory :=
  match invs with
  | [] => []
  | r :: rest =>
      if invKey pid cid r then
        match f r with
        | none => rest
        | some r' => r' :: rest
      else r :: updateFirstInv rest pid cid f

/-- Shared increment-or-create step of `gacha.py` `perform_single_pull` and
`trade.py` `_transfer_card`: bump the existing row's quantity by one, or add
a fresh row with quantity 1. -/
def incOrCreate (invs : List Inventory) (pid cid : Int) : List Inventory :=
  match findInv invs pid cid with
  | some _ => updateFirstInv invs pid cid (fun r => some { r with quantity := r.quantity + 1 })
  | none => invs ++ [⟨pid, cid, 1⟩]

/-- `deck_card.py` `remove_card_instances_from_deck` with `quantity = k`:
delete the first `min k count` matching deck rows (select order). -/
def removeDeckInstances (decks : List DeckCard) (pid cid : Int) (k : Nat) : List DeckCard :=
  match k, decks with
  | _, [] => []
  | 0, ds => ds
  | Nat.succ k', d :: rest =>
      if d.player_id == pid && d.card_id == cid then removeDeckInstances rest pid cid k'
      else d :: removeDeckInstances rest pid cid (Nat.succ k')

/-- The database never holds two inventory rows for the same
`(player, card)` pair: rows are only created when a lookup found none, so
keys are pairwise distinct. -/
def UniqueInvKeys (invs : List Inventory) : Prop :=
  invs.Pairwise (fun a b => a.player_id ≠ b.player_id ∨ a.card_id ≠ b.card_id)

/-- `players.id` is a primary key: at most one row per id. -/
def UniquePlayerIds (players : List Player) : Prop :=
  players.Pairwise (fun a b => a.id ≠ b.id)

/-! ## RankingEngine — `app/services/pvp_rank.py` -/

/-- `app/models/pvp_rank.py` `PvPRank`.  Timestamps are abstracted to `Nat`
ticks (their ordering is all the code reads); `points` is a plain `int`
mutated without re-validation, hence `Int`. -/
structure PvPRank where
  player_id : Int
  week : Int
  points : Int
  score_updated_at : Nat
  daily_plays : Nat
  last_play_date : Option Nat
deriving DecidableEq, Repr

/-- `PvPRankService.calculate_score_change` (pvp_rank.py lines 195-220).
`math.ceil((50 - abs(rank_diff)) / 2)` uses exact real division before the
ceiling, modelled in `ℚ`. -/
def calculate_score_change (winner_rank loser_rank loser_score : Int) : Int :=
  let rank_diff := loser_rank - winner_rank
  let score_change : Int :=
    if rank_diff > 50 then 1
    else if rank_diff > 0 then min rank_diff 50
    else ⌈(((50 - |rank_diff| : Int) : ℚ)) / 2⌉
  min score_change loser_score

/-- `PvPRankService.update_scores_after_battle` (pvp_rank.py lines 430-486),
parameterised by the two leaderboard positions that the service computes
with `get_player_leaderboard_rank` and by the commit clock `now`.  Returns
the two updated rank rows and the transferred score. -/
def update_scores_after_battle (winner_rank loser_rank : Int)
    (winnerObj loserObj : PvPRank) (now : Nat) : PvPRank × PvPRank × Int :=
  let score_change := calculate_score_change winner_rank loser_rank loserObj.points
  let winner' := { winnerObj with
    points := winnerObj.points + score_change
    score_updated_at := now }
  let loser' := { loserObj with
    points := max 0 (loserObj.points - score_change)
    score_updated_at := if score_change > 0 then now else loserObj.score_updated_at }
  (winner', loser', score_change)

/-- Fee computation embedded from `check_daily_limit_and_get_fee`
(pvp_rank.py lines 280-290): free below 10 daily plays, then
`500 * 2^((plays - 10) // 5)`. -/
def play_fee (plays : Nat) : Int :=
  if plays < 10 then 0
  else
    let tier := (plays - 10) / 5
    500 * 2 ^ tier

/-- `PvPRankService.check_daily_limit_and_get_fee` (pvp_rank.py lines
255-290).  `is_new_day` compares calendar dates in UTC+8; the comparison
outcome enters as the boolean `newDay`, `now` is the commit clock.  The
reset (`daily_plays = 0`, `last_play_date = now`) is committed before the
fee is computed from the resulting counter. -/
def check_daily_limit_and_get_fee (rank : PvPRank) (newDay : Bool) (now : Nat) :
    PvPRank × Int :=
  let rank1 := if newDay then { rank with daily_plays := 0, last_play_date := some now } else rank
  (rank1, play_fee rank1.daily_plays)

/-! ## BattleJudge response handling — `app/services/pvp_battle.py` -/

/-- Character-list prefix test (needle, haystack). -/
def leadsWith : List Char → List Char → Bool
  | [], _ => true
  | _ :: _, [] => false
  | a :: as, b :: bs => a == b && leadsWith as bs

/-- Python `needle in hay` substring test, on character lists. -/
def charsHas (needle : List Char) : List Char → Bool
  | [] => leadsWith needle []
  | c :: t => leadsWith needle (c :: t) || charsHas needle t

/-- Python `s.lower()`, as the character list of the result. -/
def lowerKey (s : String) : List Char :=
  s.toList.map Char.toLower

/-- The `winner_id` field of the judge's JSON, as seen through Python's
`int(...)`: absent, present and convertible, or present but raising
`ValueError`/`TypeError`. -/
inductive WinnerIdField where
  | absent
  | intLike (n : Int)
  | notIntLike
deriving DecidableEq, Repr

/-- A successfully decoded JSON object from the judge, restricted to the
fields `execute_battle` reads. -/
structure JudgeObj where
  winner : Option String
  winner_id : WinnerIdField
  narrative : Option String
  battle_narrative : Option String
deriving DecidableEq, Repr

/-- The judge's raw reply: falsy content (`None` or `""`), content that
`json.loads` rejects, or a decoded object. -/
inductive JudgeResp where
  | emptyContent
  | badJson
  | obj (o : JudgeObj)
deriving DecidableEq, Repr

/-- Winner determination of `PvPBattleService.execute_battle`
(pvp_battle.py lines 114-125). -/
def determine_winner (challenger_id opponent_id : Int) (o : JudgeObj) : Int :=
  let winner_key := lowerKey (o.winner.getD "")
  if charsHas "attacker".toList winner_key || charsHas "challenger".toList winner_key
      || winner_key == "a".toList then
    challenger_id
  else if charsHas "defender".toList winner_key || charsHas "opponent".toList winner_key
      || winner_key == "b".toList then
    opponent_id
  else
    match o.winner_id with
    | .absent => challenger_id
    | .intLike n => n
    | .notIntLike => challenger_id

/-- Response-handling stage of `PvPBattleService.execute_battle`
(pvp_battle.py lines 106-146): empty content raises `ValueError`, content
that is not JSON raises `json.JSONDecodeError`; otherwise the battle
resolves with the determined winner and the narrative fallback chain
`narrative` → `battle_narrative` → `""`. -/
def resolve_judge_response (challenger_id opponent_id : Int) (resp : JudgeResp) :
    Except String (Int × String) :=
  match resp with
  | .emptyContent => .error "Empty response from AI"
  | .badJson => .error "json.loads failed"
  | .obj o =>
      .ok (determine_winner challenger_id opponent_id o,
           o.narrative.getD (o.battle_narrative.getD ""))

/-! ## TradeExchange — `app/services/trade.py`

State touched by a trade: player rows, inventory rows and deck rows.  The
trade row being accepted is passed separately (claims quantify over it).
`InventoryService.get_player_cards` joins `Inventory` with `Card`; the
foreign key `inventories.card_id → cards.id` makes the join succeed exactly
when the inventory row exists, so ownership checks read the row
directly. -/

structure Db where
  players : List Player
  invs : List Inventory
  decks : List DeckCard
deriving DecidableEq, Repr

/-- Trade error conditions (`HTTPException` sites in trade.py). -/
inductive TradeErr where
  | notReceiver
  | notPending
  | proposerNoLongerOwnsCard
  | receiverNoLongerOwnsCard
  | receiverInsufficientCurrency
  | transferSenderLacksCard
  | transferPlayerNotFound
  | transferInsufficientCurrency
deriving DecidableEq, Repr

/-- The ownership condition of trade.py: `get_player_cards` returned a row
and its quantity is at least 1 (the negation of
`not cards or cards[0][1] < 1`). -/
def ownsOne (invs : List Inventory) (pid cid : Int) : Bool :=
  match findInv invs pid cid with
  | none => false
  | some r => !(r.quantity < 1)

/-- Re-validation of a card-for-money trade at acceptance (trade.py lines
195-205): the receiver row is fetched again; missing row or currency below
the price cancels. -/
def receiverLacksFunds (players : List Player) (pid : Int) (price : Int) : Bool :=
  match findPlayer players pid with
  | none => true
  | some p => p.currency < price

/-- `TradeService._transfer_card` (trade.py lines 374-418): decrement the
sender's row (deleting it at zero), increment or create the receiver's row,
commit, then drop one matching deck slot.  Raises before any mutation when
the sender's row is missing or empty; its successful result is a committed
state. -/
def transfer_card (db : Db) (from_pid to_pid cid : Int) : Except TradeErr Db :=
  match findInv db.invs from_pid cid with
  | none => .error .transferSenderLacksCard
  | some r =>
      if r.quantity < 1 then .error .transferSenderLacksCard
      else
        let invs1 := updateFirstInv db.invs from_pid cid
          (fun s => if s.quantity - 1 == 0 then none else some { s with quantity := s.quantity - 1 })
        let invs2 := incOrCreate invs1 to_pid cid
        let decks2 := removeDeckInstances db.decks from_pid cid 1
        .ok { db with invs := invs2, decks := decks2 }

/-- `TradeService._transfer_currency` (trade.py lines 420-438): fetch both
players, check the sender's funds, then mutate both currency fields (no
commit of its own). -/
def transfer_currency (db : Db) (from_pid to_pid : Int) (amount : Int) : Except TradeErr Db :=
  match findPlayer db.players from_pid, findPlayer db.players to_pid with
  | some f, some _ =>
      if f.currency < amount then .error .transferInsufficientCurrency
      else .ok { db with players := addCurrency (addCurrency db.players from_pid (-amount)) to_pid amount }
  | _, _ => .error .transferPlayerNotFound

/-- `TradeService.accept_trade` (trade.py lines 154-223) on an existing
trade row.  Validation and re-validation follow the source order; the three
re-validation failures commit the `CANCELLED` transition before raising.
The exchange (`_execute_trade_exchange`, lines 315-372) runs its card
transfers through `transfer_card`, whose internal commit makes each
completed card transfer observable even if a later step raises; the error
therefore carries the state as of the last commit. -/
def accept_trade (db : Db) (t : Trade) (receiver_id : Int) :
    Except (TradeErr × Db × Trade) (Db × Trade) :=
  if t.receiver_id != receiver_id then .error (.notReceiver, db, t)
  else if t.status != TradeStatus.PENDING then .error (.notPending, db, t)
  else if !ownsOne db.invs t.proposer_id t.offered_card_id then
    .error (.proposerNoLongerOwnsCard, db, { t with status := .CANCELLED })
  else if truthy t.requested_card_id
      && !ownsOne db.invs t.receiver_id (t.requested_card_id.getD 0) then
    .error (.receiverNoLongerOwnsCard, db, { t with status := .CANCELLED })
  else if truthy t.price && receiverLacksFunds db.players t.receiver_id (t.price.getD 0) then
    .error (.receiverInsufficientCurrency, db, { t with status := .CANCELLED })
  else
    match transfer_card db t.proposer_id t.receiver_id t.offered_card_id with
    | .error e => .error (e, db, t)
    | .ok db1 =>
        match (if truthy t.requested_card_id then
                transfer_card db1 t.receiver_id t.proposer_id (t.requested_card_id.getD 0)
              else .ok db1) with
        | .error e => .error (e, db1, t)
        | .ok db2 =>
            match (if truthy t.price then
                    transfer_currency db2 t.receiver_id t.proposer_id (t.price.getD 0)
                  else .ok db2) with
            | .error e => .error (e, db2, t)
            | .ok db3 => .ok (db3, { t with status := .COMPLETED })

/-- `app/schemas/trade.py` `TradeCreate`. -/
structure TradeCreate where
  receiver_id : Int
  offered_card_id : Int
  requested_card_id : Option Int
  price : Option Int
deriving DecidableEq, Repr

/-- The pydantic validators of `TradeCreate` (schemas/trade.py lines 14-37):
`validate_price` rejects a negative price; `validate_card_or_price` (when it
runs on the `price` field, with `requested_card_id` already validated)
rejects both-absent and both-present.  Note a present price of `0` counts as
provided here (the check is `is None`, not truthiness). -/
def validateTradeCreate (tc : TradeCreate) : Bool :=
  (match tc.price with
   | some v => !(v < 0)
   | none => true)
  && !(tc.requested_card_id == none && tc.price == none)
  && !(tc.requested_card_id != none && tc.price != none)

/-- Creation error conditions of `create_trade_request`. -/
inductive CreateErr where
  | proposerNotFound
  | receiverNotFound
  | selfTrade
  | proposerLacksCard
  | receiverLacksCard
  | receiverInsufficientCurrency
deriving DecidableEq, Repr

/-- `TradeService.create_trade_request` (trade.py lines 83-152): existence
checks, self-trade check, proposer ownership, then — only for a truthy
requested card — receiver ownership, and — only for a truthy price — the
receiver funds check.  On success the new PENDING trade row is committed. -/
def create_trade_request (db : Db) (proposer_id : Int) (tc : TradeCreate) :
    Except CreateErr Trade :=
  match findPlayer db.players proposer_id with
  | none => .error .proposerNotFound
  | some _ =>
      match findPlayer db.players tc.receiver_id with
      | none => .error .receiverNotFound
      | some receiver =>
          if proposer_id == tc.receiver_id then .error .selfTrade
          else if !ownsOne db.invs proposer_id tc.offered_card_id then
            .error .proposerLacksCard
          else if truthy tc.requested_card_id
              && !ownsOne db.invs tc.receiver_id (tc.requested_card_id.getD 0) then
            .error .receiverLacksCard
          else if truthy tc.price && receiver.currency < tc.price.getD 0 then
            .error .receiverInsufficientCurrency
          else
            .ok ⟨proposer_id, tc.receiver_id, tc.offered_card_id,
                 tc.requested_card_id, tc.price, .PENDING⟩

/-! ## GachaEngine — `app/services/gacha.py` -/

/-- `app/models/gacha_pity.py` `GachaPity` (`pity_count` has a `ge=0`
column). -/
structure GachaPity where
  player_id : Int
  pool_id : Int
  pity_count : Nat
deriving DecidableEq, Repr

/-- `app/models/gacha_pull.py` `GachaPull` pull record. -/
structure GachaPullRec where
  player_id : Int
  pool_id : Int
  card_id : Int
  was_pity : Bool
deriving DecidableEq, Repr

/-- One row of the `get_pool_cards` join (gacha.py lines 59-66):
`card_pool_cards` with the card resolved; `probability` is the weight. -/
structure PoolEntry where
  pool_id : Int
  card : Card
  prob : ℚ
deriving DecidableEq, Repr

/-- State touched by gacha pulls. `pools` is the list of existing
`card_pools` ids. -/
structure GachaWorld where
  players : List Player
  invs : List Inventory
  pities : List GachaPity
  pools : List Int
  poolCards : List PoolEntry
  pulls : List GachaPullRec
deriving DecidableEq, Repr

/-- Gacha error conditions (`HTTPException` sites in gacha.py). -/
inductive GachaErr where
  | invalidCount
  | playerNotFound
  | insufficientCurrency
  | poolNotFound
  | noCardsInPool
  | noSSRInPool
  | invalidProbabilities
deriving DecidableEq, Repr

/-- One draw's worth of randomness: `idx` feeds `random.choice` (a uniform
index) and `t` feeds `random.choices` (a uniform sample of `[0,1)` pushed
through the inverse CDF of the weights). -/
structure Rand where
  idx : Nat
  t : ℚ
deriving DecidableEq, Repr

/-- `GachaService.get_pool_cards` (gacha.py lines 59-66). -/
def get_pool_cards (w : GachaWorld) (pool_id : Int) : List (Card × ℚ) :=
  (w.poolCards.filter (fun e => e.pool_id == pool_id)).map (fun e => (e.card, e.prob))

/-- The pity filter of `_select_card_by_probability` (gacha.py line 87):
`[card for card, _ in cards if card.rarity == CardRarity.SSR]`. -/
def ssrOnly (cards : List (Card × ℚ)) : List Card :=
  (cards.filter (fun cw => cw.1.rarity == CardRarity.SSR)).map Prod.fst

/-- Inverse-CDF index selection underlying `random.choices(weights=...)`:
the first index whose cumulative weight exceeds the sample `t`. -/
def weightedIdx (ws : List ℚ) (t : ℚ) : Nat :=
  match ws with
  | [] => 0
  | w :: rest => if t < w then 0 else 1 + weightedIdx rest (t - w)

/-- Fallback card for total list indexing (never reached: every `getD` in
the model carries a bound established before it). -/
def dfltCard : Card := ⟨0, "", CardRarity.C⟩

/-- `MAX_PITY` (gacha.py line 21). -/
def MAX_PITY : Nat := 1000

/-- `GachaService._select_card_by_probability` (gacha.py lines 77-103).
For a pity draw: uniform choice among the exactly-SSR cards, error when
there are none.  Otherwise: weights are normalised by their sum (rejected
when the sum is not positive) and a weighted choice is made. -/
def select_card_by_probability (cards : List (Card × ℚ)) (is_pity : Bool) (r : Rand) :
    Except GachaErr Card :=
  if cards.isEmpty then .error .noCardsInPool
  else if is_pity then
    let ssr := ssrOnly cards
    if ssr.isEmpty then .error .noSSRInPool
    else .ok (ssr.getD (r.idx % ssr.length) dfltCard)
  else
    let probs := cards.map Prod.snd
    let total := probs.sum
    if total ≤ 0 then .error .invalidProbabilities
    else
      let normalized := probs.map (· / total)
      .ok ((cards.map Prod.fst).getD (weightedIdx normalized r.t % cards.length) dfltCard)

/-- `rarity in {SSR, UR, LR, EX}` (gacha.py lines 120-125). -/
def isSSROrHigher (x : CardRarity) : Bool :=
  x == .SSR || x == .UR || x == .LR || x == .EX

/-- The session state a single pull mutates: the shared pity counter, the
inventory rows and the pull records. -/
structure GSession where
  pity_count : Nat
  invs : List Inventory
  pulls : List GachaPullRec
deriving DecidableEq, Repr

/-- `GachaService.perform_single_pull` (gacha.py lines 105-160): decide
pity from the shared counter, select a card, reset or increment the
counter, record the pull and add the card to the inventory (increment or
create).  Pure session mutation — no commit. -/
def perform_single_pull (player_id pool_id : Int) (cards : List (Card × ℚ))
    (r : Rand) (s : GSession) : Except GachaErr (Card × Bool × GSession) :=
  let is_pity := decide (MAX_PITY ≤ s.pity_count)
  match select_card_by_probability cards is_pity r with
  | .error e => .error e
  | .ok card =>
      let pity' := if isSSROrHigher card.rarity then 0 else s.pity_count + 1
      let pulls' := s.pulls ++ [⟨player_id, pool_id, card.id, is_pity⟩]
      let invs' := incOrCreate s.invs player_id card.id
      .ok (card, is_pity, ⟨pity', invs', pulls'⟩)

/-- The pull loop of `pull_cards` (gacha.py lines 207-214), draw `i` taking
its randomness from `r i`.  Results are `(card, was_pity)` pairs. -/
def run_pulls (player_id pool_id : Int) (cards : List (Card × ℚ)) (r : Nat → Rand) :
    Nat → Nat → GSession → Except GachaErr (GSession × List (Card × Bool))
  | 0, _, s => .ok (s, [])
  | n + 1, i, s =>
      match perform_single_pull player_id pool_id cards (r i) s with
      | .error e => .error e
      | .ok (card, was_pity, s') =>
          match run_pulls player_id pool_id cards r n (i + 1) s' with
          | .error e => .error e
          | .ok (s'', res) => .ok (s'', (card, was_pity) :: res)

/-- The row predicate `player_id == pid && pool_id == poolid` of the
`GachaPity` table. -/
def pityKey (player_id pool_id : Int) : GachaPity → Bool :=
  fun g => g.player_id == player_id && g.pool_id == pool_id

/-- The committed pity counter visible for `(player, pool)` (0 when the row
is absent, matching the lazily-created default). -/
def pityCountOf (pities : List GachaPity) (player_id pool_id : Int) : Nat :=
  (pities.find? (pityKey player_id pool_id)).elim 0 (·.pity_count)

/-- `GachaService.get_or_create_pity` (gacha.py lines 30-43): returns the
existing row's counter, or creates (and commits) a zero row. -/
def get_or_create_pity (w : GachaWorld) (player_id pool_id : Int) : GachaWorld × Nat :=
  match w.pities.find? (pityKey player_id pool_id) with
  | some g => (w, g.pity_count)
  | none => ({ w with pities := w.pities ++ [⟨player_id, pool_id, 0⟩] }, 0)

/-- Write-back of the session's pity counter into the first matching row
(the session object that `pull_cards` mutates and commits). -/
def setPity (pities : List GachaPity) (player_id pool_id : Int) (c : Nat) : List GachaPity :=
  match pities with
  | [] => []
  | g :: rest =>
      if pityKey player_id pool_id g then
        { g with pity_count := c } :: rest
      else g :: setPity rest player_id pool_id c

/-- `SINGLE_PULL_COST` / `TEN_PULL_COST` (gacha.py lines 22-23). -/
def pull_cost (count : Nat) : Int := if count == 1 then 100 else 1000

/-- `GachaService.pull_cards` (gacha.py lines 162-227).  All preconditions
are checked before any draw; `get_or_create_pity` may commit a fresh zero
pity row; the draws mutate only the session; the cost is deducted once
after all draws and the single final commit publishes everything.  On a
raise the observable state is the one of the last commit, carried in the
error. -/
def pull_cards (w : GachaWorld) (player_id pool_id : Int) (count : Nat) (r : Nat → Rand) :
    Except (GachaErr × GachaWorld) (GachaWorld × List (Card × Bool) × Int) :=
  if !(count == 1 || count == 10) then .error (.invalidCount, w)
  else
    let cost := pull_cost count
    match findPlayer w.players player_id with
    | none => .error (.playerNotFound, w)
    | some player =>
        if player.currency < cost then .error (.insufficientCurrency, w)
        else if !(w.pools.contains pool_id) then .error (.poolNotFound, w)
        else
          let cards := get_pool_cards w pool_id
          if cards.isEmpty then .error (.noCardsInPool, w)
          else
            let (w1, pity0) := get_or_create_pity w player_id pool_id
            match run_pulls player_id pool_id cards r count 0 ⟨pity0, w1.invs, w1.pulls⟩ with
            | .error e => .error (e, w1)
            | .ok (s, res) =>
                let players' := addCurrency w1.players player_id (-cost)
                .ok ({ w1 with
                        players := players'
                        invs := s.invs
                        pulls := s.pulls
                        pities := setPity w1.pities player_id pool_id s.pity_count },
                     res, player.currency - cost)

/-! ## Arithmetic bridge for `math.ceil(x / 2)` -/

/-- `math.ceil(a / 2)` over the integers, expressed with Lean's euclidean
division: `⌈a/2⌉ = -((-a)/2)`. -/
theorem ceil_ratCast_div_two (a : ℤ) : ⌈((a : ℚ)) / 2⌉ = -((-a) / 2) := by
  have h : ((a : ℚ)) / 2 = -((((-a : ℤ) : ℚ)) / ((2 : ℕ) : ℚ)) := by
    push_cast
    ring
  rw [h, Int.ceil_neg, Rat.floor_intCast_div_natCast]
  norm_num

/-- Claim C3: the ranked-battle score transfer is 1 when
`loser_rank - winner_rank > 50`, `min(rank_diff, 50)` when `0 < rank_diff ≤
50`, and `ceil((50 - |rank_diff|)/2)` otherwise, capped at `loser_points`
in every case; applying it adds the transfer to the winner's points with
`score_updated_at` always refreshed, sets the loser's points to
`max(0, points - transfer)` with `score_updated_at` refreshed exactly when
the transfer is positive; and the two quoted examples evaluate to 1 and
24. -/
theorem score_transfer_spec (winner_rank loser_rank loser_points : Int)
    (hlp : 0 ≤ loser_points) (wObj lObj : PvPRank) (now : Nat) :
    (loser_rank - winner_rank > 50 →
      calculate_score_change winner_rank loser_rank loser_points = min 1 loser_points) ∧
    (0 < loser_rank - winner_rank → loser_rank - winner_rank ≤ 50 →
      calculate_score_change winner_rank loser_rank loser_points =
        min (min (loser_rank - winner_rank) 50) loser_points) ∧
    (loser_rank - winner_rank ≤ 0 →
      calculate_score_change winner_rank loser_rank loser_points =
        min ⌈((50 - |loser_rank - winner_rank| : Int) : ℚ) / 2⌉ loser_points) ∧
    ((update_scores_after_battle winner_rank loser_rank wObj lObj now).2.2 =
        calculate_score_change winner_rank loser_rank lObj.points ∧
      (update_scores_after_battle winner_rank loser_rank wObj lObj now).1.points =
        wObj.points + calculate_score_change winner_rank loser_rank lObj.points ∧
      (update_scores_after_battle winner_rank loser_rank wObj lObj now).1.score_updated_at = now ∧
      (update_scores_after_battle winner_rank loser_rank wObj lObj now).2.1.points =
        max 0 (lObj.points - calculate_score_change winner_rank loser_rank lObj.points) ∧
      (0 < calculate_score_change winner_rank loser_rank lObj.points →
        (update_scores_after_battle winner_rank loser_rank wObj lObj now).2.1.score_updated_at
          = now) ∧
      (¬ 0 < calculate_score_change winner_rank loser_rank lObj.points →
        (update_scores_after_battle winner_rank loser_rank wObj lObj now).2.1.score_updated_at
          = lObj.score_updated_at)) ∧
    calculate_score_change 5 60 80 = 1 ∧
    calculate_score_change 3 1 50 = 24 := by
  refine ⟨?_, ?_, ?_, ⟨?_, ?_, ?_, ?_, ?_, ?_⟩, ?_, ?_⟩
  · intro h
    simp [calculate_score_change, h]
  · intro h1 h2
    rw [calculate_score_change]
    simp only [show ¬(loser_rank - winner_rank > 50) by omega, if_false, h1, if_true]
  · intro h
    rw [calculate_score_change]
    simp only [show ¬(loser_rank - winner_rank > 50) by omega, if_false,
      show ¬(loser_rank - winner_rank > 0) by omega, if_false]
  · rfl
  · rfl
  · rfl
  · rfl
  · intro h
    simp [update_scores_after_battle, h]
  · intro h
    simp [update_scores_after_battle, h]
  · rfl
  · rw [calculate_score_change]
    norm_num [ceil_ratCast_div_two]

/-- Witness for `score_transfer_spec` at (winner_rank, loser_rank,
loser_points) = (3, 1, 50). -/
theorem score_transfer_spec_witness :
    (0 : Int) ≤ 50 ∧ calculate_score_change 3 1 50 = 24 :=
  ⟨by norm_num,
    by
      have h := score_transfer_spec 3 1 50 (by norm_num)
        ⟨1, 0, 50, 0, 0, none⟩ ⟨2, 0, 50, 0, 0, none⟩ 0
      exact h.2.2.2.2.2⟩

/-- Claim C9: when the winner is ranked at least 52 places worse than the
loser, `calculate_score_change` is strictly negative, so
`update_scores_after_battle` strictly decreases the winner's points and
strictly increases the loser's points. -/
theorem negative_transfer_spec (winner_rank loser_rank : Int)
    (h52 : winner_rank - loser_rank ≥ 52) (wObj lObj : PvPRank) (now : Nat)
    (hlp : 0 ≤ lObj.points) :
    calculate_score_change winner_rank loser_rank lObj.points < 0 ∧
    (update_scores_after_battle winner_rank loser_rank wObj lObj now).1.points < wObj.points ∧
    lObj.points <
      (update_scores_after_battle winner_rank loser_rank wObj lObj now).2.1.points := by
  have habs : |loser_rank - winner_rank| = winner_rank - loser_rank := by
    rw [abs_of_nonpos (by omega)]
    ring
  have hsc : calculate_score_change winner_rank loser_rank lObj.points =
      min (-(((winner_rank - loser_rank) - 50) / 2)) lObj.points := by
    rw [calculate_score_change]
    simp only [show ¬(loser_rank - winner_rank > 50) by omega, if_false,
      show ¬(loser_rank - winner_rank > 0) by omega, if_false,
      habs, ceil_ratCast_div_two]
    ring_nf
  have hneg : calculate_score_change winner_rank loser_rank lObj.points < 0 := by
    rw [hsc]
    have : 1 ≤ ((winner_rank - loser_rank) - 50) / 2 := by omega
    omega
  refine ⟨hneg, ?_, ?_⟩
  · simp only [update_scores_after_battle]
    omega
  · simp only [update_scores_after_battle]
    omega

/-- Witness for `negative_transfer_spec` at winner_rank 53, loser_rank 1,
loser points 10. -/
theorem negative_transfer_spec_witness :
    (53 : Int) - 1 ≥ 52 ∧ calculate_score_change 53 1 10 < 0 :=
  ⟨by norm_num,
    (negative_transfer_spec 53 1 (by norm_num)
      ⟨1, 0, 50, 0, 0, none⟩ ⟨2, 0, 10, 0, 0, none⟩ 0 (by norm_num)).1⟩

/-- Claim C7: the daily ranked-play fee is 0 below 10 plays and
`500 * 2^((plays - 10) / 5)` from 10 plays on; after a new-day reset the
counter is 0 (hence the fee is 0); and the quoted schedule values hold. -/
theorem daily_fee_schedule :
    (∀ n : Nat, play_fee n = if n < 10 then 0 else 500 * 2 ^ ((n - 10) / 5)) ∧
    (∀ rank now, (check_daily_limit_and_get_fee rank true now).1.daily_plays = 0 ∧
      (check_daily_limit_and_get_fee rank true now).2 = 0) ∧
    (∀ rank now, (check_daily_limit_and_get_fee rank false now).1 = rank ∧
      (check_daily_limit_and_get_fee rank false now).2 = play_fee rank.daily_plays) ∧
    play_fee 9 = 0 ∧ play_fee 10 = 500 ∧ play_fee 14 = 500 ∧
    play_fee 15 = 1000 ∧ play_fee 19 = 1000 ∧ play_fee 24 = 2000 ∧
    play_fee 25 = 4000 := by
  refine ⟨fun n => rfl, fun rank now => ⟨rfl, rfl⟩, fun rank now => ⟨rfl, rfl⟩,
    ?_, ?_, ?_, ?_, ?_, ?_, ?_⟩ <;> decide

/-- Claim C6 counterexample: on an empty judge response `execute_battle`
raises `ValueError` instead of defaulting the winner to the challenger, so
the battle does not resolve. -/
theorem judge_empty_response_raises :
    resolve_judge_response 1 2 JudgeResp.emptyContent = .error "Empty response from AI" ∧
    ∀ res, resolve_judge_response 1 2 JudgeResp.emptyContent ≠ .ok res := by
  refine ⟨rfl, fun res h => ?_⟩
  simp [resolve_judge_response] at h

/-- Claim C6 as amended: when the judge's reply decodes as JSON but carries
no usable winner data — the (possibly absent) `winner` string, lowercased,
matches neither the challenger patterns (`attacker`/`challenger`/`"a"`) nor
the opponent patterns (`defender`/`opponent`/`"b"`), and `winner_id` is
absent or not convertible to an int — the battle resolves with the
challenger as winner and the narrative fallback chain `narrative` →
`battle_narrative` → `""`; an empty reply or a reply that is not valid JSON
instead raises. -/
theorem judge_degrade_on_missing_winner (challenger_id opponent_id : Int) (o : JudgeObj)
    (hw1 : (charsHas "attacker".toList (lowerKey (o.winner.getD ""))
        || charsHas "challenger".toList (lowerKey (o.winner.getD ""))
        || (lowerKey (o.winner.getD "") == "a".toList)) = false)
    (hw2 : (charsHas "defender".toList (lowerKey (o.winner.getD ""))
        || charsHas "opponent".toList (lowerKey (o.winner.getD ""))
        || (lowerKey (o.winner.getD "") == "b".toList)) = false)
    (hid : o.winner_id = .absent ∨ o.winner_id = .notIntLike) :
    resolve_judge_response challenger_id opponent_id (.obj o) =
      .ok (challenger_id, o.narrative.getD (o.battle_narrative.getD "")) ∧
    (o.narrative = none → o.battle_narrative = none →
      resolve_judge_response challenger_id opponent_id (.obj o) =
        .ok (challenger_id, "")) ∧
    resolve_judge_response challenger_id opponent_id .emptyContent =
      .error "Empty response from AI" ∧
    resolve_judge_response challenger_id opponent_id .badJson =
      .error "json.loads failed" := by
  have hdet : determine_winner challenger_id opponent_id o = challenger_id := by
    simp only [determine_winner]
    rw [if_neg (fun hcon => by rw [hw1] at hcon; exact Bool.noConfusion hcon),
      if_neg (fun hcon => by rw [hw2] at hcon; exact Bool.noConfusion hcon)]
    rcases hid with h | h <;> rw [h]
  refine ⟨?_, ?_, rfl, rfl⟩
  · simp [resolve_judge_response, hdet]
  · intro h1 h2
    simp [resolve_judge_response, hdet, h1, h2]

/-- Witness for `judge_degrade_on_missing_winner`: a decoded object whose
winner string `"draw"` matches no recognised pattern, with no usable
`winner_id` and no narrative fields, resolves to the challenger with an
empty narrative. -/
theorem judge_degrade_on_missing_winner_witness :
    resolve_judge_response 1 2 (.obj ⟨some "draw", .notIntLike, none, none⟩) = .ok (1, "") :=
  (judge_degrade_on_missing_winner 1 2 ⟨some "draw", .notIntLike, none, none⟩
    (by decide) (by decide) (Or.inr rfl)).2.1 rfl rfl

/-! ## Ledger lemmas -/

theorem find?_cons_true {α} (p : α → Bool) (a : α) (l : List α) (h : p a = true) :
    (a :: l).find? p = some a :=
  List.find?_cons_of_pos l h

theorem find?_cons_false {α} (p : α → Bool) (a : α) (l : List α) (h : ¬ p a = true) :
    (a :: l).find? p = l.find? p :=
  List.find?_cons_of_neg l h

theorem playerKey_iff (pid : Int) (p : Player) : playerKey pid p = true ↔ p.id = pid := by
  simp [playerKey]

theorem invKey_iff (pid cid : Int) (r : Inventory) :
    invKey pid cid r = true ↔ r.player_id = pid ∧ r.card_id = cid := by
  simp [invKey]

theorem findPlayer_addCurrency_self (ps : List Player) (pid : Int) (d : Int) (p : Player)
    (h : findPlayer ps pid = some p) :
    findPlayer (addCurrency ps pid d) pid = some { p with currency := p.currency + d } := by
  induction ps with
  | nil => simp [findPlayer] at h
  | cons p0 rest ih =>
      by_cases h0 : playerKey pid p0 = true
      · rw [findPlayer, find?_cons_true (playerKey pid) p0 rest h0, Option.some.injEq] at h
        subst h
        have h0' : playerKey pid { p0 with currency := p0.currency + d } = true := by
          rw [playerKey_iff] at h0 ⊢
          exact h0
        rw [addCurrency, if_pos h0, findPlayer, find?_cons_true (playerKey pid) _ rest h0']
      · rw [findPlayer, find?_cons_false (playerKey pid) p0 rest h0] at h
        rw [addCurrency, if_neg h0, findPlayer, find?_cons_false (playerKey pid) p0 _ h0]
        exact ih h

theorem findPlayer_addCurrency_other (ps : List Player) (pid qid : Int) (d : Int)
    (hne : qid ≠ pid) :
    findPlayer (addCurrency ps pid d) qid = findPlayer ps qid := by
  induction ps with
  | nil => rfl
  | cons p0 rest ih =>
      by_cases h0 : playerKey pid p0 = true
      · have hq : ¬ playerKey qid p0 = true := by
          rw [playerKey_iff] at h0 ⊢
          omega
        have hq' : ¬ playerKey qid { p0 with currency := p0.currency + d } = true := hq
        rw [addCurrency, if_pos h0, findPlayer, findPlayer,
          find?_cons_false (playerKey qid) _ rest hq',
          find?_cons_false (playerKey qid) p0 rest hq]
      · rw [addCurrency, if_neg h0, findPlayer, findPlayer]
        by_cases hq : playerKey qid p0 = true
        · rw [find?_cons_true (playerKey qid) p0 _ hq,
            find?_cons_true (playerKey qid) p0 rest hq]
        · rw [find?_cons_false (playerKey qid) p0 _ hq,
            find?_cons_false (playerKey qid) p0 rest hq]
          exact ih

theorem currencyOf_addCurrency_self (ps : List Player) (pid : Int) (d : Int) (p : Player)
    (h : findPlayer ps pid = some p) :
    currencyOf (addCurrency ps pid d) pid = p.currency + d := by
  rw [currencyOf, findPlayer_addCurrency_self ps pid d p h]
  rfl

theorem currencyOf_addCurrency_other (ps : List Player) (pid qid : Int) (d : Int)
    (hne : qid ≠ pid) :
    currencyOf (addCurrency ps pid d) qid = currencyOf ps qid := by
  rw [currencyOf, findPlayer_addCurrency_other ps pid qid d hne, currencyOf]

theorem findInv_key (invs : List Inventory) (pid cid : Int) (r : Inventory)
    (h : findInv invs pid cid = some r) : r.player_id = pid ∧ r.card_id = cid :=
  (invKey_iff pid cid r).mp (List.find?_some h)

theorem getQty_of_findInv (invs : List Inventory) (pid cid : Int) :
    getQty invs pid cid = (findInv invs pid cid).elim 0 (·.quantity) := rfl

theorem ownsOne_iff (invs : List Inventory) (pid cid : Int) :
    ownsOne invs pid cid = true ↔ 1 ≤ getQty invs pid cid := by
  rw [ownsOne, getQty]
  cases h : findInv invs pid cid with
  | none => simp [Option.elim]
  | some r => simp [Option.elim, not_lt]

/-- No row in `rest` carries the key of a row that `UniqueInvKeys` separates
from it. -/
theorem findInv_none_of_unique_head (r0 : Inventory) (rest : List Inventory)
    (h : UniqueInvKeys (r0 :: rest)) :
    findInv rest r0.player_id r0.card_id = none := by
  rw [UniqueInvKeys, List.pairwise_cons] at h
  rw [findInv, List.find?_eq_none]
  intro x hx hcon
  have hk := (invKey_iff r0.player_id r0.card_id x).mp hcon
  rcases h.1 x hx with hne | hne <;> omega

theorem getQty_updateFirstInv (invs : List Inventory) (pid cid : Int) (r : Inventory)
    (f : Inventory → Option Inventory)
    (huniq : UniqueInvKeys invs)
    (hr : findInv invs pid cid = some r)
    (hf : ∀ s, ∀ s', f s = some s' → s'.player_id = s.player_id ∧ s'.card_id = s.card_id) :
    ∀ p c, getQty (updateFirstInv invs pid cid f) p c =
      if p = pid ∧ c = cid then (f r).elim 0 (·.quantity) else getQty invs p c := by
  induction invs with
  | nil => simp [findInv] at hr
  | cons r0 rest ih =>
      intro p c
      by_cases h0 : invKey pid cid r0 = true
      · rw [findInv, find?_cons_true (invKey pid cid) r0 rest h0, Option.some.injEq] at hr
        subst hr
        have hk0 := (invKey_iff pid cid r0).mp h0
        rw [updateFirstInv, if_pos h0]
        cases hfr : f r0 with
        | none =>
            by_cases hkey : p = pid ∧ c = cid
            · rw [if_pos hkey]
              show getQty rest p c = (0 : Int)
              have hnone : findInv rest r0.player_id r0.card_id = none :=
                findInv_none_of_unique_head r0 rest huniq
              rw [getQty, hkey.1, hkey.2, ← hk0.1, ← hk0.2, hnone]
              rfl
            · rw [if_neg hkey]
              show getQty rest p c = getQty (r0 :: rest) p c
              have hh : ¬ invKey p c r0 = true := by
                intro hcon
                have := (invKey_iff p c r0).mp hcon
                exact hkey ⟨by omega, by omega⟩
              rw [getQty, getQty, findInv, findInv, find?_cons_false (invKey p c) r0 rest hh]
        | some r1 =>
            have hk1 := hf r0 r1 hfr
            by_cases hkey : p = pid ∧ c = cid
            · rw [if_pos hkey]
              show getQty (r1 :: rest) p c = r1.quantity
              have hp1 : invKey p c r1 = true := (invKey_iff p c r1).mpr ⟨by omega, by omega⟩
              rw [getQty, findInv, find?_cons_true (invKey p c) r1 rest hp1]
              rfl
            · rw [if_neg hkey]
              show getQty (r1 :: rest) p c = getQty (r0 :: rest) p c
              have hh : ¬ invKey p c r0 = true := by
                intro hcon
                have := (invKey_iff p c r0).mp hcon
                exact hkey ⟨by omega, by omega⟩
              have hh1 : ¬ invKey p c r1 = true := by
                intro hcon
                have := (invKey_iff p c r1).mp hcon
                exact hh ((invKey_iff p c r0).mpr ⟨by omega, by omega⟩)
              rw [getQty, getQty, findInv, findInv,
                find?_cons_false (invKey p c) r1 rest hh1,
                find?_cons_false (invKey p c) r0 rest hh]
      · rw [findInv, find?_cons_false (invKey pid cid) r0 rest h0] at hr
        rw [updateFirstInv, if_neg h0]
        have huniq' : UniqueInvKeys rest := (List.pairwise_cons.mp huniq).2
        by_cases hhead : invKey p c r0 = true
        · have hkeyne : ¬(p = pid ∧ c = cid) := by
            intro hkey
            have h1 := (invKey_iff p c r0).mp hhead
            exact h0 ((invKey_iff pid cid r0).mpr ⟨by omega, by omega⟩)
          rw [if_neg hkeyne]
          rw [getQty, getQty, findInv, findInv,
            find?_cons_true (invKey p c) r0 _ hhead,
            find?_cons_true (invKey p c) r0 rest hhead]
        · rw [getQty, getQty, findInv, findInv,
            find?_cons_false (invKey p c) r0 _ hhead,
            find?_cons_false (invKey p c) r0 rest hhead]
          exact ih huniq' hr p c

theorem mem_updateFirstInv_key (l : List Inventory) (pid cid : Int)
    (f : Inventory → Option Inventory)
    (hf : ∀ s, ∀ s', f s = some s' → s'.player_id = s.player_id ∧ s'.card_id = s.card_id) :
    ∀ x ∈ updateFirstInv l pid cid f, ∃ y ∈ l,
      x.player_id = y.player_id ∧ x.card_id = y.card_id := by
  induction l with
  | nil =>
      intro x hx
      simp [updateFirstInv] at hx
  | cons s0 srest ihr =>
      intro x hx
      rw [updateFirstInv] at hx
      by_cases hs : invKey pid cid s0 = true
      · rw [if_pos hs] at hx
        cases hfs : f s0 with
        | none =>
            rw [hfs] at hx
            exact ⟨x, List.mem_cons_of_mem s0 hx, rfl, rfl⟩
        | some s1 =>
            rw [hfs] at hx
            rcases List.mem_cons.mp hx with hx1 | hx1
            · have hk := hf s0 s1 hfs
              exact ⟨s0, List.mem_cons_self s0 srest,
                by rw [hx1]; exact hk.1, by rw [hx1]; exact hk.2⟩
            · exact ⟨x, List.mem_cons_of_mem s0 hx1, rfl, rfl⟩
      · rw [if_neg hs] at hx
        rcases List.mem_cons.mp hx with hx1 | hx1
        · exact ⟨s0, List.mem_cons_self s0 srest, by rw [hx1], by rw [hx1]⟩
        · rcases ihr x hx1 with ⟨y, hy, hk⟩
          exact ⟨y, List.mem_cons_of_mem s0 hy, hk⟩

theorem uniq_updateFirstInv (invs : List Inventory) (pid cid : Int)
    (f : Inventory → Option Inventory)
    (huniq : UniqueInvKeys invs)
    (hf : ∀ s, ∀ s', f s = some s' → s'.player_id = s.player_id ∧ s'.card_id = s.card_id) :
    UniqueInvKeys (updateFirstInv invs pid cid f) := by
  induction invs with
  | nil => exact huniq
  | cons r0 rest ih =>
      rw [UniqueInvKeys, List.pairwise_cons] at huniq
      rw [updateFirstInv]
      by_cases h0 : invKey pid cid r0 = true
      · rw [if_pos h0]
        cases hfr : f r0 with
        | none => exact huniq.2
        | some r1 =>
            rw [UniqueInvKeys, List.pairwise_cons]
            have hk := hf r0 r1 hfr
            refine ⟨fun b hb => ?_, huniq.2⟩
            rcases huniq.1 b hb with hx | hx
            · exact Or.inl (by omega)
            · exact Or.inr (by omega)
      · rw [if_neg h0]
        rw [UniqueInvKeys, List.pairwise_cons]
        refine ⟨fun b hb => ?_, ih huniq.2⟩
        rcases mem_updateFirstInv_key rest pid cid f hf b hb with ⟨y, hy, hk⟩
        rcases huniq.1 y hy with hx | hx
        · exact Or.inl (by omega)
        · exact Or.inr (by omega)

theorem find?_append_of_none {α} (p : α → Bool) (l1 l2 : List α) (h : l1.find? p = none) :
    (l1 ++ l2).find? p = l2.find? p := by
  induction l1 with
  | nil => rfl
  | cons a t ih =>
      rw [List.find?] at h
      cases hp : p a
      · rw [hp] at h
        simp only [List.cons_append]
        rw [List.find?_cons_of_neg _ (by simp [hp])]
        exact ih h
      · rw [hp] at h
        simp at h

theorem currencyOf_eq (ps : List Player) (pid : Int) (p : Player)
    (h : findPlayer ps pid = some p) : currencyOf ps pid = p.currency := by
  rw [currencyOf, h]
  rfl

/-- Unfolding `incOrCreate` when the row exists. -/
theorem incOrCreate_eq_some (invs : List Inventory) (pid cid : Int) (r : Inventory)
    (h : findInv invs pid cid = some r) :
    incOrCreate invs pid cid =
      updateFirstInv invs pid cid (fun s => some { s with quantity := s.quantity + 1 }) := by
  rw [incOrCreate, h]

/-- Unfolding `incOrCreate` when the row is absent. -/
theorem incOrCreate_eq_none (invs : List Inventory) (pid cid : Int)
    (h : findInv invs pid cid = none) :
    incOrCreate invs pid cid = invs ++ [⟨pid, cid, 1⟩] := by
  rw [incOrCreate, h]

theorem find?_append_of_some {α} (p : α → Bool) (l1 l2 : List α) (y : α)
    (h : l1.find? p = some y) : (l1 ++ l2).find? p = some y := by
  induction l1 with
  | nil => simp at h
  | cons a t ih =>
      cases hp : p a
      · rw [List.find?_cons_of_neg _ (by simp [hp])] at h
        simp only [List.cons_append]
        rw [List.find?_cons_of_neg _ (by simp [hp])]
        exact ih h
      · rw [List.find?_cons_of_pos _ hp] at h
        simp only [List.cons_append]
        rw [List.find?_cons_of_pos _ hp]
        exact h

theorem getQty_incOrCreate (invs : List Inventory) (pid cid : Int)
    (huniq : UniqueInvKeys invs) :
    ∀ p c, getQty (incOrCreate invs pid cid) p c =
      if p = pid ∧ c = cid then getQty invs pid cid + 1 else getQty invs p c := by
  intro p c
  cases hfind : findInv invs pid cid with
  | some r =>
      have hfkeep : ∀ s, ∀ s' : Inventory,
          (fun s : Inventory => some { s with quantity := s.quantity + 1 }) s = some s' →
          s'.player_id = s.player_id ∧ s'.card_id = s.card_id := by
        intro s s' hs
        simp only [Option.some.injEq] at hs
        subst hs
        exact ⟨rfl, rfl⟩
      rw [incOrCreate_eq_some invs pid cid r hfind,
        getQty_updateFirstInv invs pid cid r _ huniq hfind hfkeep p c]
      by_cases hkey : p = pid ∧ c = cid
      · rw [if_pos hkey, if_pos hkey, getQty, hfind]
        rfl
      · rw [if_neg hkey, if_neg hkey]
  | none =>
      rw [incOrCreate_eq_none invs pid cid hfind]
      by_cases hkey : p = pid ∧ c = cid
      · rw [if_pos hkey]
        have hfind' : List.find? (invKey pid cid) invs = none := hfind
        rw [getQty, getQty, findInv, findInv, hkey.1, hkey.2]
        rw [find?_append_of_none (invKey pid cid) invs _ hfind, hfind']
        rw [List.find?_cons_of_pos _ (by simp [invKey])]
        rfl
      · rw [if_neg hkey]
        rw [getQty, getQty, findInv, findInv]
        cases hfq : List.find? (invKey p c) invs with
        | some x => rw [find?_append_of_some (invKey p c) invs _ x hfq]
        | none =>
            rw [find?_append_of_none (invKey p c) invs _ hfq]
            have hnk : ¬ invKey p c (⟨pid, cid, 1⟩ : Inventory) = true := by
              intro hcon
              have := (invKey_iff p c ⟨pid, cid, 1⟩).mp hcon
              exact hkey ⟨this.1.symm, this.2.symm⟩
            rw [List.find?_cons_of_neg _ hnk]
            rfl

theorem uniq_incOrCreate (invs : List Inventory) (pid cid : Int)
    (huniq : UniqueInvKeys invs) : UniqueInvKeys (incOrCreate invs pid cid) := by
  cases hfind : findInv invs pid cid with
  | some r =>
      rw [incOrCreate_eq_some invs pid cid r hfind]
      refine uniq_updateFirstInv invs pid cid _ huniq ?_
      intro s s' hs
      simp only [Option.some.injEq] at hs
      subst hs
      exact ⟨rfl, rfl⟩
  | none =>
      rw [incOrCreate_eq_none invs pid cid hfind]
      rw [UniqueInvKeys, List.pairwise_append]
      refine ⟨huniq, List.pairwise_singleton _ _, ?_⟩
      intro a ha b hb
      rw [List.mem_singleton] at hb
      subst hb
      rw [findInv, List.find?_eq_none] at hfind
      have := hfind a ha
      by_contra hcon
      push_neg at hcon
      exact this ((invKey_iff pid cid a).mpr ⟨hcon.1, hcon.2⟩)


/-- Unfolding `transfer_card` once the sender's row is known. -/
theorem transfer_card_eq_of_find (db : Db) (from_pid to_pid cid : Int) (r : Inventory)
    (hfind : findInv db.invs from_pid cid = some r) :
    transfer_card db from_pid to_pid cid =
      if r.quantity < 1 then .error .transferSenderLacksCard
      else .ok { db with
        invs := incOrCreate
          (updateFirstInv db.invs from_pid cid
            (fun s => if s.quantity - 1 == 0 then none
                      else some { s with quantity := s.quantity - 1 }))
          to_pid cid
        decks := removeDeckInstances db.decks from_pid cid 1 } := by
  rw [transfer_card, hfind]

/-- `_transfer_card` on a sender who owns the card: it succeeds, leaves
player rows untouched, keeps inventory keys unique and moves exactly one
unit from sender to receiver. -/
theorem transfer_card_ok (db : Db) (from_pid to_pid cid : Int)
    (huniq : UniqueInvKeys db.invs)
    (hne : from_pid ≠ to_pid)
    (howns : ownsOne db.invs from_pid cid = true) :
    ∃ db', transfer_card db from_pid to_pid cid = .ok db' ∧
      db'.players = db.players ∧
      UniqueInvKeys db'.invs ∧
      (∀ p c, getQty db'.invs p c = getQty db.invs p c
        + (if p = to_pid ∧ c = cid then 1 else 0)
        - (if p = from_pid ∧ c = cid then 1 else 0)) := by
  have hr : ∃ r, findInv db.invs from_pid cid = some r ∧ 1 ≤ r.quantity := by
    rw [ownsOne] at howns
    cases h : findInv db.invs from_pid cid with
    | none =>
        rw [h] at howns
        simp at howns
    | some r =>
        rw [h] at howns
        simp only [Bool.not_eq_true', decide_eq_false_iff_not, not_lt] at howns
        exact ⟨r, rfl, howns⟩
  obtain ⟨r, hfind, hq⟩ := hr
  have hkeep : ∀ s, ∀ s' : Inventory,
      (fun s : Inventory => if s.quantity - 1 == 0 then none
        else some { s with quantity := s.quantity - 1 }) s = some s' →
      s'.player_id = s.player_id ∧ s'.card_id = s.card_id := by
    intro s s' hs
    dsimp only at hs
    by_cases h1 : (s.quantity - 1 == 0) = true
    · rw [if_pos h1] at hs
      simp at hs
    · rw [if_neg h1] at hs
      simp only [Option.some.injEq] at hs
      subst hs
      exact ⟨rfl, rfl⟩
  have hdec := getQty_updateFirstInv db.invs from_pid cid r _ huniq hfind hkeep
  have huniq1 : UniqueInvKeys (updateFirstInv db.invs from_pid cid
      (fun s => if s.quantity - 1 == 0 then none
        else some { s with quantity := s.quantity - 1 })) :=
    uniq_updateFirstInv db.invs from_pid cid _ huniq hkeep
  have hkr := findInv_key db.invs from_pid cid r hfind
  refine ⟨{ db with
      invs := incOrCreate
        (updateFirstInv db.invs from_pid cid
          (fun s => if s.quantity - 1 == 0 then none
                    else some { s with quantity := s.quantity - 1 }))
        to_pid cid
      decks := removeDeckInstances db.decks from_pid cid 1 },
    by rw [transfer_card_eq_of_find db from_pid to_pid cid r hfind, if_neg (by omega)],
    rfl, uniq_incOrCreate _ to_pid cid huniq1, ?_⟩
  intro p c
  have hdecval : ((fun s : Inventory => if s.quantity - 1 == 0 then none
      else some { s with quantity := s.quantity - 1 }) r).elim 0 (·.quantity) =
      r.quantity - 1 := by
    dsimp only
    by_cases h1 : (r.quantity - 1 == 0) = true
    · rw [if_pos h1]
      simp only [beq_iff_eq] at h1
      simp [Option.elim, h1]
    · rw [if_neg h1]
      rfl
  have hgq : getQty db.invs from_pid cid = r.quantity := by
    rw [getQty, hfind]
    rfl
  rw [getQty_incOrCreate _ to_pid cid huniq1 p c]
  by_cases hp1 : p = to_pid ∧ c = cid
  · obtain ⟨hp, hc⟩ := hp1
    rw [hp, hc, if_pos ⟨rfl, rfl⟩, hdec to_pid cid,
      if_neg (show ¬(to_pid = from_pid ∧ cid = cid) from fun h => hne h.1.symm)]
    omega
  · rw [if_neg hp1, hdec p c]
    by_cases hp3 : p = from_pid ∧ c = cid
    · obtain ⟨hp, hc⟩ := hp3
      rw [hp, hc, if_pos ⟨rfl, rfl⟩, hdecval, hgq]
      omega
    · rw [if_neg hp3]
      omega

/-- `_transfer_currency` on two existing players with sufficient sender
funds: it succeeds, leaves inventories and decks untouched and moves the
amount from sender to receiver. -/
theorem transfer_currency_ok (db : Db) (from_pid to_pid amount : Int) (f t : Player)
    (hf : findPlayer db.players from_pid = some f)
    (ht : findPlayer db.players to_pid = some t)
    (hfund : ¬ f.currency < amount)
    (hne : from_pid ≠ to_pid) :
    ∃ db', transfer_currency db from_pid to_pid amount = .ok db' ∧
      db'.invs = db.invs ∧ db'.decks = db.decks ∧
      ∀ q, currencyOf db'.players q = currencyOf db.players q
        + (if q = to_pid then amount else 0)
        - (if q = from_pid then amount else 0) := by
  refine ⟨{ db with
      players := addCurrency (addCurrency db.players from_pid (-amount)) to_pid amount },
    ?_, rfl, rfl, ?_⟩
  · rw [transfer_currency, hf, ht]
    dsimp only
    rw [if_neg hfund]
  intro q
  by_cases hq : q = to_pid
  · subst hq
    have hfp : findPlayer (addCurrency db.players from_pid (-amount)) q = some t := by
      rw [findPlayer_addCurrency_other db.players from_pid q (-amount) (by omega)]
      exact ht
    rw [currencyOf_addCurrency_self _ q amount t hfp,
      currencyOf_eq db.players q t ht]
    rw [if_pos rfl, if_neg (by omega)]
    ring
  · rw [currencyOf_addCurrency_other _ to_pid q amount (by omega)]
    by_cases hq2 : q = from_pid
    · subst hq2
      rw [currencyOf_addCurrency_self db.players q (-amount) f hf,
        currencyOf_eq db.players q f hf]
      rw [if_neg hq, if_pos rfl]
      ring
    · rw [currencyOf_addCurrency_other db.players from_pid q (-amount) (by omega)]
      rw [if_neg hq, if_neg hq2]
      ring

theorem bnot_true_of_not {b : Bool} (h : ¬ b = true) : (!b) = true := by
  cases b
  · rfl
  · exact absurd rfl h

theorem bnot_false_of_true {b : Bool} (h : b = true) : ¬ (!b) = true := by
  rw [h]
  simp

/-- A failed funds re-validation names the receiver row and its shortfall. -/
theorem receiverLacksFunds_false (ps : List Player) (pid price : Int)
    (h : receiverLacksFunds ps pid price = false) :
    ∃ p, findPlayer ps pid = some p ∧ ¬ p.currency < price := by
  rw [receiverLacksFunds] at h
  cases hx : findPlayer ps pid with
  | none =>
      rw [hx] at h
      simp at h
  | some p =>
      rw [hx] at h
      simp only [decide_eq_false_iff_not] at h
      exact ⟨p, rfl, h⟩

/-- Claim C8: when a pending trade is accepted by its receiver but
re-validation fails (proposer no longer owns the offered card, or — for a
truthy requested card — the receiver no longer owns it, or — for a truthy
price — the receiver's row is missing or short of funds), `accept_trade`
performs exactly one state mutation, the transition to CANCELLED, and
raises: the error carries the untouched ledger (`db` itself, so no
currency, inventory or deck row changed) and the cancelled trade. -/
theorem accept_trade_revalidation_cancels (db : Db) (t : Trade)
    (hpend : t.status = .PENDING)
    (hfail :
      (¬ ownsOne db.invs t.proposer_id t.offered_card_id = true) ∨
      (truthy t.requested_card_id = true ∧
        ¬ ownsOne db.invs t.receiver_id (t.requested_card_id.getD 0) = true) ∨
      (truthy t.price = true ∧
        receiverLacksFunds db.players t.receiver_id (t.price.getD 0) = true)) :
    ∃ e, accept_trade db t t.receiver_id =
      .error (e, db, { t with status := .CANCELLED }) := by
  have hc0 : ¬((t.receiver_id != t.receiver_id) = true) := by simp
  have hc1 : ¬((t.status != TradeStatus.PENDING) = true) := by simp [hpend]
  rw [accept_trade, if_neg hc0, if_neg hc1]
  by_cases hb2 : ownsOne db.invs t.proposer_id t.offered_card_id = true
  · rw [if_neg (bnot_false_of_true hb2)]
    by_cases hb3 : (truthy t.requested_card_id
        && !ownsOne db.invs t.receiver_id (t.requested_card_id.getD 0)) = true
    · exact ⟨.receiverNoLongerOwnsCard, by rw [if_pos hb3]⟩
    · rw [if_neg hb3]
      have hb4 : (truthy t.price
          && receiverLacksFunds db.players t.receiver_id (t.price.getD 0)) = true := by
        rcases hfail with h | h | h
        · exact absurd hb2 h
        · exfalso
          apply hb3
          rw [Bool.and_eq_true]
          exact ⟨h.1, bnot_true_of_not h.2⟩
        · rw [Bool.and_eq_true]
          exact h
      exact ⟨.receiverInsufficientCurrency, by rw [if_pos hb4]⟩
  · exact ⟨.proposerNoLongerOwnsCard, by rw [if_pos (bnot_true_of_not hb2)]⟩

/-- Witness for `accept_trade_revalidation_cancels`: a pending
card-for-money trade whose receiver has 30 < 50 currency is cancelled with
the ledger untouched. -/
theorem accept_trade_revalidation_cancels_witness :
    ∃ e, accept_trade ⟨[⟨1, 100⟩, ⟨2, 30⟩], [⟨1, 10, 1⟩], []⟩
        ⟨1, 2, 10, none, some 50, .PENDING⟩ 2 =
      .error (e, ⟨[⟨1, 100⟩, ⟨2, 30⟩], [⟨1, 10, 1⟩], []⟩,
        ⟨1, 2, 10, none, some 50, .CANCELLED⟩) :=
  accept_trade_revalidation_cancels ⟨[⟨1, 100⟩, ⟨2, 30⟩], [⟨1, 10, 1⟩], []⟩
    ⟨1, 2, 10, none, some 50, .PENDING⟩ rfl
    (Or.inr (Or.inr ⟨rfl, by decide⟩))

/-- Claim C10: a trade offering a card for a price of 0 with no requested
card passes the `TradeCreate` validators (a present 0 price satisfies the
exactly-one-of check), is created successfully (the receiver-funds check is
skipped because `0` is falsy), and on acceptance transfers the offered card
from proposer to receiver while every player's currency is unchanged (the
money leg is skipped for the same falsiness reason). -/
theorem zero_price_trade_spec (db : Db) (pid rid cid : Int) (pp rp : Player)
    (hP : findPlayer db.players pid = some pp)
    (hR : findPlayer db.players rid = some rp)
    (hne : pid ≠ rid)
    (howns : ownsOne db.invs pid cid = true)
    (huniq : UniqueInvKeys db.invs) :
    validateTradeCreate ⟨rid, cid, none, some 0⟩ = true ∧
    create_trade_request db pid ⟨rid, cid, none, some 0⟩ =
      .ok ⟨pid, rid, cid, none, some 0, .PENDING⟩ ∧
    ∃ db', accept_trade db ⟨pid, rid, cid, none, some 0, .PENDING⟩ rid =
        .ok (db', ⟨pid, rid, cid, none, some 0, .COMPLETED⟩) ∧
      db'.players = db.players ∧
      (∀ q, currencyOf db'.players q = currencyOf db.players q) ∧
      (∀ p c, getQty db'.invs p c = getQty db.invs p c
        + (if p = rid ∧ c = cid then 1 else 0)
        - (if p = pid ∧ c = cid then 1 else 0)) := by
  obtain ⟨db1, htc, hpl, huniq1, hdelta⟩ := transfer_card_ok db pid rid cid huniq hne howns
  refine ⟨rfl, ?_, db1, ?_, hpl, fun q => by rw [hpl], hdelta⟩
  · rw [create_trade_request]
    dsimp only
    rw [hP, hR]
    dsimp only
    rw [if_neg (by simp [hne]), if_neg (bnot_false_of_true howns),
      if_neg (by simp [truthy]), if_neg (by simp [truthy])]
  · rw [accept_trade]
    dsimp only
    rw [if_neg (by simp), if_neg (by simp), if_neg (bnot_false_of_true howns),
      if_neg (by simp [truthy]), if_neg (by simp [truthy])]
    simp [htc, truthy]

/-- Witness for `zero_price_trade_spec`: two concrete players, the proposer
holding one copy of card 10; creation and acceptance of the zero-price
trade succeed with both balances intact. -/
theorem zero_price_trade_spec_witness :
    validateTradeCreate ⟨2, 10, none, some 0⟩ = true ∧
    create_trade_request ⟨[⟨1, 100⟩, ⟨2, 30⟩], [⟨1, 10, 1⟩], []⟩ 1 ⟨2, 10, none, some 0⟩ =
      .ok ⟨1, 2, 10, none, some 0, .PENDING⟩ :=
  have h := zero_price_trade_spec ⟨[⟨1, 100⟩, ⟨2, 30⟩], [⟨1, 10, 1⟩], []⟩ 1 2 10
    ⟨1, 100⟩ ⟨2, 30⟩ rfl rfl (by decide) (by decide)
    (by rw [UniqueInvKeys]; exact List.pairwise_singleton _ _)
  ⟨h.1, h.2.1⟩

/-- Claim C1 counterexample: calling `accept_trade` on a pending trade with
an actor who is not the receiver raises while the trade status remains
PENDING — not REJECTED or CANCELLED as the claim requires of every raising
call. -/
theorem accept_trade_wrong_actor_pending :
    accept_trade ⟨[⟨1, 100⟩, ⟨2, 100⟩], [⟨1, 10, 1⟩], []⟩
        ⟨1, 2, 10, none, some 50, .PENDING⟩ 99 =
      .error (.notReceiver, ⟨[⟨1, 100⟩, ⟨2, 100⟩], [⟨1, 10, 1⟩], []⟩,
        ⟨1, 2, 10, none, some 50, .PENDING⟩) ∧
    (TradeStatus.PENDING ≠ .REJECTED ∧ TradeStatus.PENDING ≠ .CANCELLED) := by
  exact ⟨rfl, by decide, by decide⟩

/-- Claim C1 as amended: for a pending trade between distinct parties, on a
ledger with unique inventory keys whose proposer row exists whenever a
price is to be paid (the foreign keys guarantee both in the real store),
`accept_trade` either performs the whole exchange — one unit of the offered
card to the receiver, the requested card back or the price in currency, and
status COMPLETED — or raises with every currency balance and inventory
quantity exactly as before and the trade status still PENDING
(authorization/state errors) or CANCELLED (re-validation failures); no
partially-transferred state survives the call. -/
theorem accept_trade_atomic (db : Db) (t : Trade) (rid : Int)
    (hpend : t.status = .PENDING)
    (hne : t.proposer_id ≠ t.receiver_id)
    (huniq : UniqueInvKeys db.invs)
    (hfk : truthy t.price = true → (findPlayer db.players t.proposer_id).isSome = true) :
    (∃ db' t', accept_trade db t rid = .ok (db', t') ∧
      t'.status = .COMPLETED ∧
      (∀ q, currencyOf db'.players q = currencyOf db.players q
        + (if truthy t.price = true then
            (if q = t.proposer_id then t.price.getD 0 else 0)
            - (if q = t.receiver_id then t.price.getD 0 else 0)
          else 0)) ∧
      (∀ p c, getQty db'.invs p c = getQty db.invs p c
        + ((if p = t.receiver_id ∧ c = t.offered_card_id then 1 else 0)
          - (if p = t.proposer_id ∧ c = t.offered_card_id then 1 else 0))
        + (if truthy t.requested_card_id = true then
            (if p = t.proposer_id ∧ c = t.requested_card_id.getD 0 then 1 else 0)
            - (if p = t.receiver_id ∧ c = t.requested_card_id.getD 0 then 1 else 0)
          else 0))) ∨
    (∃ e db' t', accept_trade db t rid = .error (e, db', t') ∧
      db' = db ∧ (t'.status = .PENDING ∨ t'.status = .CANCELLED)) := by
  by_cases hc0 : (t.receiver_id != rid) = true
  · exact Or.inr ⟨.notReceiver, db, t, by rw [accept_trade, if_pos hc0], rfl, Or.inl hpend⟩
  have hc1 : ¬((t.status != TradeStatus.PENDING) = true) := by simp [hpend]
  by_cases hb2 : ownsOne db.invs t.proposer_id t.offered_card_id = true
  case neg =>
      exact Or.inr ⟨.proposerNoLongerOwnsCard, db, { t with status := .CANCELLED },
        by rw [accept_trade, if_neg hc0, if_neg hc1, if_pos (bnot_true_of_not hb2)],
        rfl, Or.inr rfl⟩
  by_cases hb3 : (truthy t.requested_card_id
      && !ownsOne db.invs t.receiver_id (t.requested_card_id.getD 0)) = true
  · exact Or.inr ⟨.receiverNoLongerOwnsCard, db, { t with status := .CANCELLED },
      by rw [accept_trade, if_neg hc0, if_neg hc1, if_neg (bnot_false_of_true hb2),
        if_pos hb3],
      rfl, Or.inr rfl⟩
  by_cases hb4 : (truthy t.price
      && receiverLacksFunds db.players t.receiver_id (t.price.getD 0)) = true
  · exact Or.inr ⟨.receiverInsufficientCurrency, db, { t with status := .CANCELLED },
      by rw [accept_trade, if_neg hc0, if_neg hc1, if_neg (bnot_false_of_true hb2),
        if_neg hb3, if_pos hb4],
      rfl, Or.inr rfl⟩
  -- success path
  left
  obtain ⟨db1, htc1, hpl1, huniq1, hdelta1⟩ :=
    transfer_card_ok db t.proposer_id t.receiver_id t.offered_card_id huniq hne hb2
  cases hreq : truthy t.requested_card_id with
  | false =>
      cases hpr : truthy t.price with
      | false =>
          refine ⟨db1, { t with status := .COMPLETED }, ?_, rfl, ?_, ?_⟩
          · rw [accept_trade, if_neg hc0, if_neg hc1, if_neg (bnot_false_of_true hb2),
              if_neg hb3, if_neg hb4]
            simp [htc1, hreq, hpr]
          · intro q
            rw [hpl1, if_neg (show ¬((false : Bool) = true) from by simp)]
            ring
          · intro p c
            rw [hdelta1 p c, if_neg (show ¬((false : Bool) = true) from by simp)]
            ring
      | true =>
          have hrlf : receiverLacksFunds db.players t.receiver_id (t.price.getD 0) = false := by
            cases hx : receiverLacksFunds db.players t.receiver_id (t.price.getD 0) with
            | false => rfl
            | true => exact absurd (by rw [Bool.and_eq_true]; exact ⟨hpr, hx⟩) hb4
          obtain ⟨rp, hrp, hfunds⟩ :=
            receiverLacksFunds_false db.players t.receiver_id (t.price.getD 0) hrlf
          have hpsome := hfk hpr
          rw [Option.isSome_iff_exists] at hpsome
          obtain ⟨pr, hprow⟩ := hpsome
          have hrp1 : findPlayer db1.players t.receiver_id = some rp := by
            rw [hpl1]
            exact hrp
          have hpr1 : findPlayer db1.players t.proposer_id = some pr := by
            rw [hpl1]
            exact hprow
          obtain ⟨db3, htcur, hinv3, hdeck3, hcur3⟩ :=
            transfer_currency_ok db1 t.receiver_id t.proposer_id (t.price.getD 0)
              rp pr hrp1 hpr1 hfunds (Ne.symm hne)
          refine ⟨db3, { t with status := .COMPLETED }, ?_, rfl, ?_, ?_⟩
          · rw [accept_trade, if_neg hc0, if_neg hc1, if_neg (bnot_false_of_true hb2),
              if_neg hb3, if_neg hb4]
            simp [htc1, hreq, hpr, htcur]
          · intro q
            rw [hcur3 q, hpl1, if_pos (show (true : Bool) = true from rfl)]
            ring
          · intro p c
            rw [hinv3, hdelta1 p c, if_neg (show ¬((false : Bool) = true) from by simp)]
            ring
  | true =>
      have hown2 : ownsOne db.invs t.receiver_id (t.requested_card_id.getD 0) = true := by
        cases hx : ownsOne db.invs t.receiver_id (t.requested_card_id.getD 0) with
        | true => rfl
        | false =>
            have hcon : (truthy t.requested_card_id
                && !ownsOne db.invs t.receiver_id (t.requested_card_id.getD 0)) = true := by
              rw [Bool.and_eq_true]
              exact ⟨hreq, by rw [hx]; rfl⟩
            exact absurd hcon hb3
      have hown2' : ownsOne db1.invs t.receiver_id (t.requested_card_id.getD 0) = true := by
        rw [ownsOne_iff] at hown2 ⊢
        rw [hdelta1 t.receiver_id (t.requested_card_id.getD 0)]
        have hnotprop : ¬(t.receiver_id = t.proposer_id ∧
            t.requested_card_id.getD 0 = t.offered_card_id) := by
          intro h
          exact hne h.1.symm
        rw [if_neg hnotprop]
        by_cases hco : t.requested_card_id.getD 0 = t.offered_card_id
        · rw [if_pos ⟨rfl, hco⟩]
          omega
        · rw [if_neg (by intro h; exact hco h.2)]
          omega
      obtain ⟨db2, htc2, hpl2, huniq2, hdelta2⟩ :=
        transfer_card_ok db1 t.receiver_id t.proposer_id (t.requested_card_id.getD 0)
          huniq1 (Ne.symm hne) hown2'
      cases hpr : truthy t.price with
      | false =>
          refine ⟨db2, { t with status := .COMPLETED }, ?_, rfl, ?_, ?_⟩
          · rw [accept_trade, if_neg hc0, if_neg hc1, if_neg (bnot_false_of_true hb2),
              if_neg hb3, if_neg hb4]
            simp [htc1, hreq, hpr, htc2]
          · intro q
            rw [hpl2, hpl1, if_neg (show ¬((false : Bool) = true) from by simp)]
            ring
          · intro p c
            rw [hdelta2 p c, hdelta1 p c, if_pos (show (true : Bool) = true from rfl)]
            ring
      | true =>
          have hrlf : receiverLacksFunds db.players t.receiver_id (t.price.getD 0) = false := by
            cases hx : receiverLacksFunds db.players t.receiver_id (t.price.getD 0) with
            | false => rfl
            | true => exact absurd (by rw [Bool.and_eq_true]; exact ⟨hpr, hx⟩) hb4
          obtain ⟨rp, hrp, hfunds⟩ :=
            receiverLacksFunds_false db.players t.receiver_id (t.price.getD 0) hrlf
          have hpsome := hfk hpr
          rw [Option.isSome_iff_exists] at hpsome
          obtain ⟨pr, hprow⟩ := hpsome
          have hrp2 : findPlayer db2.players t.receiver_id = some rp := by
            rw [hpl2, hpl1]
            exact hrp
          have hpr2 : findPlayer db2.players t.proposer_id = some pr := by
            rw [hpl2, hpl1]
            exact hprow
          obtain ⟨db3, htcur, hinv3, hdeck3, hcur3⟩ :=
            transfer_currency_ok db2 t.receiver_id t.proposer_id (t.price.getD 0)
              rp pr hrp2 hpr2 hfunds (Ne.symm hne)
          refine ⟨db3, { t with status := .COMPLETED }, ?_, rfl, ?_, ?_⟩
          · rw [accept_trade, if_neg hc0, if_neg hc1, if_neg (bnot_false_of_true hb2),
              if_neg hb3, if_neg hb4]
            simp [htc1, hreq, hpr, htc2, htcur]
          · intro q
            rw [hcur3 q, hpl2, hpl1, if_pos (show (true : Bool) = true from rfl)]
            ring
          · intro p c
            rw [hinv3, hdelta2 p c, hdelta1 p c, if_pos (show (true : Bool) = true from rfl)]
            ring

/-- Witness for `accept_trade_atomic`: a concrete pending card-for-50 trade
accepted by its receiver lands in the success disjunct or the error
disjunct of the theorem (here: success). -/
theorem accept_trade_atomic_witness :
    ∃ db' t', accept_trade ⟨[⟨1, 0⟩, ⟨2, 1000⟩], [⟨1, 10, 2⟩], []⟩
        ⟨1, 2, 10, none, some 500, .PENDING⟩ 2 = .ok (db', t') ∧
      t'.status = .COMPLETED := by
  have h := accept_trade_atomic ⟨[⟨1, 0⟩, ⟨2, 1000⟩], [⟨1, 10, 2⟩], []⟩
    ⟨1, 2, 10, none, some 500, .PENDING⟩ 2 rfl (by decide)
    (by rw [UniqueInvKeys]; exact List.pairwise_singleton _ _)
    (fun _ => rfl)
  have hcomp : accept_trade ⟨[⟨1, 0⟩, ⟨2, 1000⟩], [⟨1, 10, 2⟩], []⟩
      ⟨1, 2, 10, none, some 500, .PENDING⟩ 2 =
    .ok (⟨[⟨1, 500⟩, ⟨2, 500⟩], [⟨1, 10, 1⟩, ⟨2, 10, 1⟩], []⟩,
      ⟨1, 2, 10, none, some 500, .COMPLETED⟩) := rfl
  rcases h with ⟨db', t', hok, hst, _, _⟩ | ⟨e, db', t', herr, _, _⟩
  · exact ⟨db', t', hok, hst⟩
  · rw [hcomp] at herr
    cases herr

/-! ## Gacha lemmas -/

theorem get_or_create_pity_frame (w : GachaWorld) (pid poolid : Int) :
    (get_or_create_pity w pid poolid).1.players = w.players ∧
    (get_or_create_pity w pid poolid).1.invs = w.invs ∧
    (get_or_create_pity w pid poolid).1.pulls = w.pulls := by
  rw [get_or_create_pity]
  cases h : w.pities.find? (pityKey pid poolid) with
  | some g => exact ⟨rfl, rfl, rfl⟩
  | none => exact ⟨rfl, rfl, rfl⟩

theorem get_or_create_pity_finds (w : GachaWorld) (pid poolid : Int) :
    ∃ g, (get_or_create_pity w pid poolid).1.pities.find? (pityKey pid poolid) = some g ∧
      g.pity_count = (get_or_create_pity w pid poolid).2 := by
  rw [get_or_create_pity]
  cases h : w.pities.find? (pityKey pid poolid) with
  | some g => exact ⟨g, h, rfl⟩
  | none =>
      refine ⟨⟨pid, poolid, 0⟩, ?_, rfl⟩
      show (w.pities ++ [(⟨pid, poolid, 0⟩ : GachaPity)]).find? (pityKey pid poolid) = _
      rw [find?_append_of_none (pityKey pid poolid) w.pities _ h,
        find?_cons_true (pityKey pid poolid) _ [] (by simp [pityKey])]

theorem find?_setPity_self (pities : List GachaPity) (pid poolid : Int) (c : Nat)
    (g : GachaPity) (h : pities.find? (pityKey pid poolid) = some g) :
    (setPity pities pid poolid c).find? (pityKey pid poolid) =
      some { g with pity_count := c } := by
  induction pities with
  | nil => simp at h
  | cons g0 rest ih =>
      by_cases h0 : pityKey pid poolid g0 = true
      · rw [find?_cons_true (pityKey pid poolid) g0 rest h0, Option.some.injEq] at h
        subst h
        have h0' : pityKey pid poolid { g0 with pity_count := c } = true := h0
        rw [setPity, if_pos h0, find?_cons_true (pityKey pid poolid) _ rest h0']
      · rw [find?_cons_false (pityKey pid poolid) g0 rest h0] at h
        rw [setPity, if_neg h0, find?_cons_false (pityKey pid poolid) g0 _ h0]
        exact ih h

/-- The pity counter after a successful single pull: reset on an SSR+ draw,
incremented otherwise; the pull also reports pity correctly and appends one
pull record. -/
theorem perform_single_pull_pity (pid poolid : Int) (cards : List (Card × ℚ))
    (r : Rand) (s : GSession) (card : Card) (wp : Bool) (s' : GSession)
    (h : perform_single_pull pid poolid cards r s = .ok (card, wp, s')) :
    s'.pity_count = (if isSSROrHigher card.rarity then 0 else s.pity_count + 1) ∧
    wp = decide (MAX_PITY ≤ s.pity_count) := by
  rw [perform_single_pull] at h
  cases hsel : select_card_by_probability cards (decide (MAX_PITY ≤ s.pity_count)) r with
  | error e =>
      rw [hsel] at h
      simp at h
  | ok card0 =>
      rw [hsel] at h
      simp only [Except.ok.injEq, Prod.mk.injEq] at h
      obtain ⟨hc, hwp, hs⟩ := h
      subst hc
      subst hs
      exact ⟨rfl, hwp.symm⟩

theorem run_pulls_length (pid poolid : Int) (cards : List (Card × ℚ)) (r : Nat → Rand) :
    ∀ n i s s' res, run_pulls pid poolid cards r n i s = .ok (s', res) →
      res.length = n := by
  intro n
  induction n with
  | zero =>
      intro i s s' res h
      rw [run_pulls] at h
      simp only [Except.ok.injEq, Prod.mk.injEq] at h
      rw [← h.2]
      rfl
  | succ m ih =>
      intro i s s' res h
      rw [run_pulls] at h
      cases hps : perform_single_pull pid poolid cards (r i) s with
      | error e =>
          rw [hps] at h
          simp at h
      | ok t =>
          obtain ⟨card, wp, s1⟩ := t
          rw [hps] at h
          dsimp only at h
          cases hrest : run_pulls pid poolid cards r m (i + 1) s1 with
          | error e =>
              rw [hrest] at h
              simp at h
          | ok pr =>
              obtain ⟨s2, res2⟩ := pr
              rw [hrest] at h
              dsimp only at h
              simp only [Except.ok.injEq, Prod.mk.injEq] at h
              rw [← h.2, List.length_cons, ih (i + 1) s1 s2 res2 hrest]

theorem run_pulls_pity_fold (pid poolid : Int) (cards : List (Card × ℚ)) (r : Nat → Rand) :
    ∀ n i s s' res, run_pulls pid poolid cards r n i s = .ok (s', res) →
      s'.pity_count = res.foldl
        (fun acc cb => if isSSROrHigher cb.1.rarity then 0 else acc + 1) s.pity_count := by
  intro n
  induction n with
  | zero =>
      intro i s s' res h
      rw [run_pulls] at h
      simp only [Except.ok.injEq, Prod.mk.injEq] at h
      rw [← h.1, ← h.2]
      rfl
  | succ m ih =>
      intro i s s' res h
      rw [run_pulls] at h
      cases hps : perform_single_pull pid poolid cards (r i) s with
      | error e =>
          rw [hps] at h
          simp at h
      | ok t =>
          obtain ⟨card, wp, s1⟩ := t
          rw [hps] at h
          dsimp only at h
          cases hrest : run_pulls pid poolid cards r m (i + 1) s1 with
          | error e =>
              rw [hrest] at h
              simp at h
          | ok pr =>
              obtain ⟨s2, res2⟩ := pr
              rw [hrest] at h
              dsimp only at h
              simp only [Except.ok.injEq, Prod.mk.injEq] at h
              obtain ⟨hs, hres⟩ := h
              subst hs
              rw [← hres, List.foldl_cons]
              have hp1 := (perform_single_pull_pity pid poolid cards (r i) s card wp s1 hps).1
              rw [ih (i + 1) s1 s2 res2 hrest, hp1]

/-- Elimination form of a successful `pull_cards` call: the validations
passed, the pity row was read or created, the loop ran on the session and
the final commit wrote the session back with the cost deducted once. -/
theorem pull_cards_ok_elim (w : GachaWorld) (pid poolid : Int) (count : Nat)
    (r : Nat → Rand) (w' : GachaWorld) (res : List (Card × Bool)) (rem : Int)
    (h : pull_cards w pid poolid count r = .ok (w', res, rem)) :
    ∃ player s w1 pity0,
      findPlayer w.players pid = some player ∧
      get_or_create_pity w pid poolid = (w1, pity0) ∧
      run_pulls pid poolid (get_pool_cards w poolid) r count 0
        ⟨pity0, w1.invs, w1.pulls⟩ = .ok (s, res) ∧
      w' = { w1 with
              players := addCurrency w1.players pid (-(pull_cost count))
              invs := s.invs
              pulls := s.pulls
              pities := setPity w1.pities pid poolid s.pity_count } ∧
      rem = player.currency - pull_cost count := by
  rw [pull_cards] at h
  by_cases hcount : (!(count == 1 || count == 10)) = true
  · rw [if_pos hcount] at h
    simp at h
  rw [if_neg hcount] at h
  cases hfp : findPlayer w.players pid with
  | none =>
      rw [hfp] at h
      simp at h
  | some player =>
      rw [hfp] at h
      dsimp only at h
      by_cases hcur : player.currency < pull_cost count
      · rw [if_pos hcur] at h
        simp at h
      rw [if_neg hcur] at h
      by_cases hpool : (!(w.pools.contains poolid)) = true
      · rw [if_pos hpool] at h
        simp at h
      rw [if_neg hpool] at h
      by_cases hempty : (get_pool_cards w poolid).isEmpty = true
      · rw [if_pos hempty] at h
        simp at h
      rw [if_neg hempty] at h
      cases hg : get_or_create_pity w pid poolid with
      | mk w1 pity0 =>
          rw [hg] at h
          dsimp only at h
          cases hrun : run_pulls pid poolid (get_pool_cards w poolid) r count 0
              ⟨pity0, w1.invs, w1.pulls⟩ with
          | error e =>
              rw [hrun] at h
              simp at h
          | ok pr =>
              obtain ⟨s, res0⟩ := pr
              rw [hrun] at h
              simp only [Except.ok.injEq, Prod.mk.injEq] at h
              obtain ⟨hw, hres, hrem⟩ := h
              exact ⟨player, s, w1, pity0, rfl, rfl, hres ▸ hrun, hw.symm, hrem.symm⟩

/-- Elimination form of a failing `pull_cards` call: the observable state is
the original world, or the original world with a freshly created zero pity
row; player rows, inventory rows and pull records are untouched. -/
theorem pull_cards_err_elim (w : GachaWorld) (pid poolid : Int) (count : Nat)
    (r : Nat → Rand) (e : GachaErr) (w' : GachaWorld)
    (h : pull_cards w pid poolid count r = .error (e, w')) :
    w'.players = w.players ∧ w'.invs = w.invs ∧ w'.pulls = w.pulls := by
  rw [pull_cards] at h
  by_cases hcount : (!(count == 1 || count == 10)) = true
  · rw [if_pos hcount] at h
    simp only [Except.error.injEq, Prod.mk.injEq] at h
    rw [← h.2]
    exact ⟨rfl, rfl, rfl⟩
  rw [if_neg hcount] at h
  cases hfp : findPlayer w.players pid with
  | none =>
      rw [hfp] at h
      simp only [Except.error.injEq, Prod.mk.injEq] at h
      rw [← h.2]
      exact ⟨rfl, rfl, rfl⟩
  | some player =>
      rw [hfp] at h
      dsimp only at h
      by_cases hcur : player.currency < pull_cost count
      · rw [if_pos hcur] at h
        simp only [Except.error.injEq, Prod.mk.injEq] at h
        rw [← h.2]
        exact ⟨rfl, rfl, rfl⟩
      rw [if_neg hcur] at h
      by_cases hpool : (!(w.pools.contains poolid)) = true
      · rw [if_pos hpool] at h
        simp only [Except.error.injEq, Prod.mk.injEq] at h
        rw [← h.2]
        exact ⟨rfl, rfl, rfl⟩
      rw [if_neg hpool] at h
      by_cases hempty : (get_pool_cards w poolid).isEmpty = true
      · rw [if_pos hempty] at h
        simp only [Except.error.injEq, Prod.mk.injEq] at h
        rw [← h.2]
        exact ⟨rfl, rfl, rfl⟩
      rw [if_neg hempty] at h
      cases hg : get_or_create_pity w pid poolid with
      | mk w1 pity0 =>
          rw [hg] at h
          dsimp only at h
          have hframe := get_or_create_pity_frame w pid poolid
          rw [hg] at hframe
          cases hrun : run_pulls pid poolid (get_pool_cards w poolid) r count 0
              ⟨pity0, w1.invs, w1.pulls⟩ with
          | error e0 =>
              rw [hrun] at h
              simp only [Except.error.injEq, Prod.mk.injEq] at h
              rw [← h.2]
              exact hframe
          | ok pr =>
              obtain ⟨s, res0⟩ := pr
              rw [hrun] at h
              simp at h

theorem ssrOnly_eq_filter_map (cards : List (Card × ℚ)) :
    ssrOnly cards = (cards.map Prod.fst).filter (fun c => c.rarity == CardRarity.SSR) := by
  induction cards with
  | nil => rfl
  | cons cw rest ih =>
      simp only [ssrOnly, List.map_cons, List.filter_cons]
      by_cases h : (cw.1.rarity == CardRarity.SSR) = true
      · rw [if_pos h, if_pos h, List.map_cons]
        exact congrArg (List.cons cw.1) ih
      · rw [if_neg h, if_neg h]
        exact ih

theorem ssrOnly_rarity (cards : List (Card × ℚ)) (c : Card) (hc : c ∈ ssrOnly cards) :
    c.rarity = CardRarity.SSR := by
  rw [ssrOnly] at hc
  simp only [List.mem_map, List.mem_filter] at hc
  obtain ⟨cw, ⟨hmem, hr⟩, hfst⟩ := hc
  rw [← hfst]
  exact beq_iff_eq.mp hr

/-- Claim C2: `pull_cards` checks every precondition before any draw and
commits once at the end: on any error (invalid count, unknown player,
insufficient currency, unknown pool, empty pool, or a mid-batch failure
such as a pity draw finding no exactly-SSR card) the observable player
rows, inventory rows and pull records are exactly the originals; on
success all `count` draws happened, and the cost (100 for a single, 1000
for a ten-pull) is deducted from the player's currency exactly once. -/
theorem pull_cards_atomic (w : GachaWorld) (pid poolid : Int) (count : Nat) (r : Nat → Rand) :
    (∀ e w', pull_cards w pid poolid count r = .error (e, w') →
      w'.players = w.players ∧ w'.invs = w.invs ∧ w'.pulls = w.pulls) ∧
    (∀ w' res rem, pull_cards w pid poolid count r = .ok (w', res, rem) →
      res.length = count ∧
      pull_cost count = (if count == 1 then 100 else 1000) ∧
      currencyOf w'.players pid = currencyOf w.players pid - pull_cost count ∧
      rem = currencyOf w.players pid - pull_cost count) := by
  refine ⟨fun e w' h => pull_cards_err_elim w pid poolid count r e w' h, ?_⟩
  intro w' res rem h
  obtain ⟨player, s, w1, pity0, hfp, hg, hrun, hw, hrem⟩ :=
    pull_cards_ok_elim w pid poolid count r w' res rem h
  have hframe := get_or_create_pity_frame w pid poolid
  rw [hg] at hframe
  have hfp1 : findPlayer w1.players pid = some player := by
    rw [hframe.1]
    exact hfp
  refine ⟨run_pulls_length pid poolid (get_pool_cards w poolid) r count 0 _ s res hrun,
    rfl, ?_, ?_⟩
  · rw [hw]
    show currencyOf (addCurrency w1.players pid (-(pull_cost count))) pid = _
    rw [currencyOf_addCurrency_self w1.players pid _ player hfp1,
      currencyOf_eq w.players pid player hfp]
    ring
  · rw [hrem, currencyOf_eq w.players pid player hfp]

/-- Witness for `pull_cards_atomic`: a concrete single pull at full pity on
a pool with one SSR card succeeds, draws once and costs exactly 100 (1000 −
100 = 900 remaining). -/
theorem pull_cards_atomic_witness :
    ∃ w' res, pull_cards ⟨[⟨1, 1000⟩], [], [⟨1, 7, 1000⟩], [7],
        [⟨7, ⟨11, "s", .SSR⟩, 1⟩], []⟩ 1 7 1 (fun _ => ⟨0, 0⟩) =
      .ok (w', res, 900) ∧ res.length = 1 := by
  have hcomp : pull_cards ⟨[⟨1, 1000⟩], [], [⟨1, 7, 1000⟩], [7],
      [⟨7, ⟨11, "s", .SSR⟩, 1⟩], []⟩ 1 7 1 (fun _ => ⟨0, 0⟩) =
    .ok (⟨[⟨1, 900⟩], [⟨1, 11, 1⟩], [⟨1, 7, 0⟩], [7], [⟨7, ⟨11, "s", .SSR⟩, 1⟩],
          [⟨1, 7, 11, true⟩]⟩,
      [(⟨11, "s", .SSR⟩, true)], 900) := rfl
  refine ⟨_, _, hcomp, ?_⟩
  exact ((pull_cards_atomic ⟨[⟨1, 1000⟩], [], [⟨1, 7, 1000⟩], [7],
    [⟨7, ⟨11, "s", .SSR⟩, 1⟩], []⟩ 1 7 1 (fun _ => ⟨0, 0⟩)).2 _ _ 900 hcomp).1

/-- Claim C4: in a single draw with `pity_count ≥ 1000`, selection is a
uniform choice among exactly the pool's SSR-rarity cards — the drawn card
is the `(idx mod n)`-th entry of the SSR sublist, lies in that sublist and
has rarity exactly SSR (so UR/LR/EX cards are excluded); the weights are
ignored (any reweighting of the same cards selects identically) and every
SSR index is reachable; and when the pool holds no exactly-SSR card the
pull fails with the precondition error. -/
theorem pity_draw_spec (pid poolid : Int) (cards : List (Card × ℚ)) (r : Rand) (s : GSession)
    (hp : MAX_PITY ≤ s.pity_count) (hne : cards ≠ []) :
    ((ssrOnly cards) ≠ [] →
      ∃ s', perform_single_pull pid poolid cards r s =
        .ok ((ssrOnly cards).getD (r.idx % (ssrOnly cards).length) dfltCard, true, s') ∧
        (ssrOnly cards).getD (r.idx % (ssrOnly cards).length) dfltCard ∈ ssrOnly cards ∧
        ((ssrOnly cards).getD (r.idx % (ssrOnly cards).length) dfltCard).rarity =
          CardRarity.SSR) ∧
    ((ssrOnly cards) = [] →
      perform_single_pull pid poolid cards r s = .error .noSSRInPool) ∧
    (∀ cards' : List (Card × ℚ), cards.map Prod.fst = cards'.map Prod.fst →
      select_card_by_probability cards true r = select_card_by_probability cards' true r) ∧
    (∀ i, ∀ hi : i < (ssrOnly cards).length,
      select_card_by_probability cards true ⟨i, r.t⟩ =
        .ok ((ssrOnly cards).getD i dfltCard)) := by
  have hne' : ¬(cards.isEmpty = true) := by
    rw [List.isEmpty_iff]
    exact hne
  have hd : decide (MAX_PITY ≤ s.pity_count) = true := decide_eq_true hp
  refine ⟨?_, ?_, ?_, ?_⟩
  · intro hssr
    have hssr' : ¬((ssrOnly cards).isEmpty = true) := by
      rw [List.isEmpty_iff]
      exact hssr
    have hsel : select_card_by_probability cards true r =
        .ok ((ssrOnly cards).getD (r.idx % (ssrOnly cards).length) dfltCard) := by
      rw [select_card_by_probability, if_neg hne', if_pos rfl, if_neg hssr']
    have hlen : 0 < (ssrOnly cards).length := List.length_pos.mpr hssr
    have hlt : r.idx % (ssrOnly cards).length < (ssrOnly cards).length :=
      Nat.mod_lt _ hlen
    have hmem : (ssrOnly cards).getD (r.idx % (ssrOnly cards).length) dfltCard
        ∈ ssrOnly cards := by
      rw [List.getD_eq_getElem _ _ hlt]
      exact List.getElem_mem _
    have hok : ∃ s', perform_single_pull pid poolid cards r s =
        .ok ((ssrOnly cards).getD (r.idx % (ssrOnly cards).length) dfltCard, true, s') := by
      rw [perform_single_pull, hd, hsel]
      exact ⟨_, rfl⟩
    obtain ⟨s', hok⟩ := hok
    exact ⟨s', hok, hmem, ssrOnly_rarity cards _ hmem⟩
  · intro hssr
    have hssr' : (ssrOnly cards).isEmpty = true := by
      rw [List.isEmpty_iff]
      exact hssr
    have hsel : select_card_by_probability cards true r = .error .noSSRInPool := by
      rw [select_card_by_probability, if_neg hne', if_pos rfl, if_pos hssr']
    rw [perform_single_pull, hd, hsel]
  · intro cards' hfst
    have hne2 : ¬(cards'.isEmpty = true) := by
      rw [List.isEmpty_iff]
      intro hcon
      apply hne
      have := congrArg List.length hfst
      rw [hcon] at this
      simp only [List.length_map, List.length_nil] at this
      exact List.length_eq_zero.mp this
    rw [select_card_by_probability, select_card_by_probability,
      if_neg hne', if_neg hne2, if_pos rfl, if_pos rfl,
      ssrOnly_eq_filter_map, ssrOnly_eq_filter_map, hfst]
  · intro i hi
    have hssr : ssrOnly cards ≠ [] := by
      intro hcon
      rw [hcon] at hi
      simp at hi
    have hssr' : ¬((ssrOnly cards).isEmpty = true) := by
      rw [List.isEmpty_iff]
      exact hssr
    rw [select_card_by_probability, if_neg hne', if_pos rfl, if_neg hssr']
    rw [Nat.mod_eq_of_lt hi]

/-- Witness for `pity_draw_spec`: one SSR card in a two-card pool; at pity
1000 the draw returns that SSR card regardless of its tiny weight. -/
theorem pity_draw_spec_witness :
    ∃ s', perform_single_pull 1 7
        [(⟨10, "c", .C⟩, 9), (⟨11, "s", .SSR⟩, 1)] ⟨0, 0⟩ ⟨1000, [], []⟩ =
      .ok (⟨11, "s", .SSR⟩, true, s') := by
  have h := (pity_draw_spec 1 7 [(⟨10, "c", .C⟩, 9), (⟨11, "s", .SSR⟩, 1)]
    ⟨0, 0⟩ ⟨1000, [], []⟩ (by decide) (by decide)).1 (by decide)
  obtain ⟨s', hok, _, _⟩ := h
  exact ⟨s', hok⟩

/-- Claim C5: after each draw the shared pity counter is 0 when the drawn
rarity is SSR/UR/LR/EX and the previous value plus one otherwise; the
counter threads sequentially through a multi-pull request, so the final
committed counter is the left fold of that reset-or-increment step over
the drawn cards, starting from the counter `get_or_create_pity` read —
in particular an SSR-or-higher hit mid-batch restarts the count seen by
every later draw of the same request. -/
theorem pity_counter_evolution :
    (∀ (pid poolid : Int) (cards : List (Card × ℚ)) (r : Rand) (s : GSession) card wp s',
      perform_single_pull pid poolid cards r s = .ok (card, wp, s') →
      s'.pity_count = (if isSSROrHigher card.rarity then 0 else s.pity_count + 1)) ∧
    (∀ (pid poolid : Int) (cards : List (Card × ℚ)) (r : Nat → Rand) n i s s' res,
      run_pulls pid poolid cards r n i s = .ok (s', res) →
      s'.pity_count = res.foldl
        (fun acc cb => if isSSROrHigher cb.1.rarity then 0 else acc + 1) s.pity_count) ∧
    (∀ (w : GachaWorld) (pid poolid : Int) count r w' res rem,
      pull_cards w pid poolid count r = .ok (w', res, rem) →
      pityCountOf w'.pities pid poolid = res.foldl
        (fun acc cb => if isSSROrHigher cb.1.rarity then 0 else acc + 1)
        (get_or_create_pity w pid poolid).2) := by
  refine ⟨?_, ?_, ?_⟩
  · intro pid poolid cards r s card wp s' h
    exact (perform_single_pull_pity pid poolid cards r s card wp s' h).1
  · intro pid poolid cards r n i s s' res h
    exact run_pulls_pity_fold pid poolid cards r n i s s' res h
  · intro w pid poolid count r w' res rem h
    obtain ⟨player, s, w1, pity0, hfp, hg, hrun, hw, hrem⟩ :=
      pull_cards_ok_elim w pid poolid count r w' res rem h
    have hfind := get_or_create_pity_finds w pid poolid
    rw [hg] at hfind
    obtain ⟨g, hgf, hgc⟩ := hfind
    have hset := find?_setPity_self w1.pities pid poolid s.pity_count g hgf
    have hpc : pityCountOf w'.pities pid poolid = s.pity_count := by
      rw [hw]
      show pityCountOf (setPity w1.pities pid poolid s.pity_count) pid poolid = _
      rw [pityCountOf, hset]
      rfl
    rw [hpc,
      run_pulls_pity_fold pid poolid (get_pool_cards w poolid) r count 0 _ s res hrun,
      hg]

/-- Witness for `pity_counter_evolution`: a pity draw landing an SSR card
resets the counter from 1000 to 0. -/
theorem pity_counter_evolution_witness :
    (0 : Nat) = (if isSSROrHigher CardRarity.SSR then 0 else 1000 + 1) :=
  pity_counter_evolution.1 1 7 [(⟨11, "s", .SSR⟩, 1)] ⟨0, 0⟩ ⟨1000, [], []⟩
    ⟨11, "s", .SSR⟩ true ⟨0, [⟨1, 11, 1⟩], [⟨1, 7, 11, true⟩]⟩ rfl

end Carta
